import Mathlib

/-!
Verification of the gold-dashboard history pipeline.

This file embeds, in Lean, the core data model and operations of the
dashboard's historical-data pipeline:

* the local history store (`record_snapshot` / `get_value_at`), modelled from
  the specification because `history_store.py` itself is not part of the
  source tree (only its tests and callers are);
* the per-asset change aggregation of
  `src/gold_dashboard/repositories/history_repo.py`
  (`_gold_changes`, `_usd_vnd_changes`, `_bitcoin_changes`, `_vn30_changes`,
  `_land_changes`, the seed tables, and the lookup helpers);
* the payload assembly helpers of `src/gold_dashboard/generate_data.py`
  (`_safe_divide`, `_build_land_benchmark`, `_assess_payload_health`,
  `_restore_degraded_assets_from_lkg`, `merge_current_into_timeseries`).

Representation choices, used consistently throughout:

* Python `Decimal` values are rationals (`ℚ`).
* Calendar dates ("YYYY-MM-DD" strings and `datetime.date` values in the
  source) are represented by their day number on the proleptic Gregorian
  calendar, computed by `civil` below.  Day differences in the embedding
  therefore coincide with calendar-day differences in the source, and the
  lexicographic order on ISO date strings coincides with the order on day
  numbers.
* Python timestamps (`datetime`) are a day number plus a second-of-day
  (`Timestamp`); all code under verification only ever inspects the calendar
  day of a timestamp.
* Python dicts keyed by date are association lists `List (ℤ × ℚ)` with
  first-match lookup and replace-first-or-append insertion, matching dict
  insertion-order semantics.
-/

namespace GoldDashboard

/-- Day number of the Gregorian calendar date `y-m-d` (valid for `y ≥ 1`),
via the standard civil-from-days algorithm.  Two dates' `civil` values differ
by exactly the number of calendar days between them. -/
def civil (y m d : ℕ) : ℤ :=
  let yp : ℕ := if m ≤ 2 then y - 1 else y
  let era : ℕ := yp / 400
  let yoe : ℕ := yp % 400
  let mp : ℕ := (m + 9) % 12
  let doy : ℕ := (153 * mp + 2) / 5 + d - 1
  let doe : ℕ := yoe * 365 + yoe / 4 - yoe / 100 + doy
  (era * 146097 + doe : ℕ)

/-- A `datetime` instant: calendar day number plus second-of-day.  The wall
clock distance between two timestamps is `86400 * (day₂ - day₁) + (sec₂ - sec₁)`
seconds, while all store lookups only compare the `day` components. -/
structure Timestamp where
  day : ℤ
  sec : ℤ
deriving DecidableEq

/-- Per-asset history entries: an association list from day number to value,
first occurrence wins on lookup. -/
abbrev Entries := List (ℤ × ℚ)

/-- First-match association-list lookup (Python `dict` access by key). -/
def lookupDay (entries : Entries) (day : ℤ) : Option ℚ :=
  match entries with
  | [] => none
  | (d, v) :: rest => if d = day then some v else lookupDay rest day

/-- Replace the first entry for `day`, or append a new one (Python `dict`
item assignment, preserving insertion order). -/
def upsertDay (entries : Entries) (day : ℤ) (v : ℚ) : Entries :=
  match entries with
  | [] => [(day, v)]
  | (d, w) :: rest => if d = day then (d, v) :: rest else (d, w) :: upsertDay rest day v

/-- Modelled from the spec: `history_store.record_snapshot` (the module
`history_store.py` is absent from the source tree; §3/§4.1 of the spec define
it).  Upserts the entry for the timestamp's calendar day, last write wins;
non-positive values are refused. -/
def record_snapshot (entries : Entries) (value : ℚ) (ts : Timestamp) : Entries :=
  if 0 < value then upsertDay entries ts.day value else entries

/-- Modelled from the spec: the fixed lookup tolerance of the local history
store (`MAX_LOOKUP_TOLERANCE_DAYS`), three calendar days. -/
def MAX_LOOKUP_TOLERANCE_DAYS : ℕ := 3

/-- One step of the nearest-entry scan shared by `get_value_at` and
`_find_seed_rate`: keep the running best `(distance, value)` pair, replacing
it only on a strictly smaller calendar-day distance within the tolerance. -/
def nearestStep (targetDay : ℤ) (tol : ℕ) (best : Option (ℕ × ℚ)) (s : ℤ × ℚ) :
    Option (ℕ × ℚ) :=
  let δ := (s.1 - targetDay).natAbs
  if δ > tol then best
  else
    match best with
    | none => some (δ, s.2)
    | some (bδ, _) => if δ < bδ then some (δ, s.2) else best

/-- Scan a day-keyed list in order for the entry nearest to `targetDay`
within `tol` days, earliest entry winning ties. -/
def nearestWithin (l : List (ℤ × ℚ)) (targetDay : ℤ) (tol : ℕ) : Option (ℕ × ℚ) :=
  l.foldl (nearestStep targetDay tol) none

/-- Calendar-day distance from an entry to a target day. -/
def dayDist (targetDay : ℤ) (s : ℤ × ℚ) : ℕ := (s.1 - targetDay).natAbs

/-- Modelled from the spec: `history_store.get_value_at` on day numbers.
Returns the value of the stored entry whose calendar day is closest to the
target day, provided the distance is at most `MAX_LOOKUP_TOLERANCE_DAYS`;
on a tie the entry occurring first is chosen (the spec leaves ties open and
asks for a deterministic choice). -/
def get_value_at_day (entries : Entries) (targetDay : ℤ) : Option ℚ :=
  (nearestWithin entries targetDay MAX_LOOKUP_TOLERANCE_DAYS).map Prod.snd

/-- Modelled from the spec: `history_store.get_value_at` on timestamps; only
the calendar day of the target is compared ("comparison must be done on
calendar day, not wall-clock delta"). -/
def get_value_at (entries : Entries) (target : Timestamp) : Option ℚ :=
  get_value_at_day entries target.day

/-- Percentage change from `old` to `new` as in
`history_repo._compute_change_percent`: `(new - old) / old * 100` quantized
to two decimal places (`Decimal.quantize` with the default half-even
rounding); exactly `0` when `old = 0`. -/
def roundHalfEvenInt (q : ℚ) : ℤ :=
  if q - ⌊q⌋ < 1 / 2 then ⌊q⌋
  else if q - ⌊q⌋ > 1 / 2 then ⌊q⌋ + 1
  else if 2 ∣ ⌊q⌋ then ⌊q⌋ else ⌊q⌋ + 1

/-- Quantize a rational to two decimal places with half-even rounding,
as `Decimal.quantize(Decimal("0.01"))` does. -/
def quantize2 (q : ℚ) : ℚ := (roundHalfEvenInt (q * 100) : ℚ) / 100

/-- The change-percent helper `_compute_change_percent` of `history_repo.py`. -/
def compute_change_percent (old_value new_value : ℚ) : ℚ :=
  if old_value = 0 then 0
  else quantize2 ((new_value - old_value) / old_value * 100)

/-- The `_SJC_HISTORICAL_SEEDS` table of `history_repo.py` (dates as day
numbers, values in VND per tael). -/
def SJC_HISTORICAL_SEEDS : List (ℤ × ℚ) :=
  [(civil 2023 1 15, 66500000),
   (civil 2023 2 10, 66800000),
   (civil 2023 2 12, 66800000),
   (civil 2023 6 1, 67500000),
   (civil 2023 10 1, 69000000),
   (civil 2024 2 10, 79000000),
   (civil 2024 6 1, 87500000),
   (civil 2024 10 1, 84000000),
   (civil 2025 1 1, 85000000)]

/-- The `_USD_VND_HISTORICAL_SEEDS` table of `history_repo.py`. -/
def USD_VND_HISTORICAL_SEEDS : List (ℤ × ℚ) :=
  [(civil 2023 1 15, 23850),
   (civil 2023 2 10, 23880),
   (civil 2023 2 13, 23880),
   (civil 2023 3 15, 23900),
   (civil 2023 4 15, 23920),
   (civil 2023 5 15, 23940),
   (civil 2023 6 1, 23950),
   (civil 2023 7 1, 24000),
   (civil 2023 8 1, 24150),
   (civil 2023 9 1, 24400),
   (civil 2023 10 1, 24650),
   (civil 2023 11 1, 24700),
   (civil 2023 12 1, 24750),
   (civil 2024 1 1, 24900),
   (civil 2024 2 10, 25100),
   (civil 2024 3 1, 25200),
   (civil 2024 4 1, 25400),
   (civil 2024 5 1, 25650),
   (civil 2024 6 1, 25850),
   (civil 2024 7 1, 25750),
   (civil 2024 8 1, 25650),
   (civil 2024 9 1, 25550),
   (civil 2024 10 1, 25500),
   (civil 2024 11 1, 25550),
   (civil 2024 12 1, 25650),
   (civil 2025 1 1, 25800),
   (civil 2025 2 1, 25850),
   (civil 2025 2 10, 25860),
   (civil 2025 2 14, 25855),
   (civil 2025 3 1, 25900),
   (civil 2025 4 1, 26000),
   (civil 2025 5 1, 26150),
   (civil 2025 6 1, 26300),
   (civil 2025 7 1, 26500),
   (civil 2025 8 1, 26700),
   (civil 2025 9 1, 26950),
   (civil 2025 10 1, 27200),
   (civil 2025 10 28, 27600),
   (civil 2025 11 15, 27650),
   (civil 2025 12 15, 27700),
   (civil 2026 1 1, 25790),
   (civil 2026 1 15, 25800),
   (civil 2026 1 28, 25805),
   (civil 2026 2 4, 25810),
   (civil 2026 2 10, 25813)]

/-- The `_BTC_VND_HISTORICAL_SEEDS` table of `history_repo.py`. -/
def BTC_VND_HISTORICAL_SEEDS : List (ℤ × ℚ) :=
  [(civil 2022 1 15, 1010000000),
   (civil 2022 2 10, 1001600000),
   (civil 2022 3 1, 990000000),
   (civil 2022 4 1, 920000000),
   (civil 2022 5 1, 830000000),
   (civil 2022 6 1, 696000000),
   (civil 2022 7 1, 530000000),
   (civil 2022 8 1, 555000000),
   (civil 2022 9 1, 500000000),
   (civil 2022 10 1, 479000000),
   (civil 2022 11 1, 485000000),
   (civil 2022 12 1, 410000000),
   (civil 2023 1 1, 393000000),
   (civil 2023 2 1, 547000000),
   (civil 2023 2 10, 530000000),
   (civil 2023 2 15, 570000000),
   (civil 2023 3 1, 540000000),
   (civil 2023 4 1, 672000000),
   (civil 2023 5 1, 648000000),
   (civil 2023 6 1, 648000000),
   (civil 2023 7 1, 720000000),
   (civil 2023 8 1, 696000000),
   (civil 2023 9 1, 648000000),
   (civil 2023 10 1, 672000000),
   (civil 2023 11 1, 840000000),
   (civil 2023 12 1, 1020000000),
   (civil 2024 1 1, 1068000000),
   (civil 2024 2 1, 1050000000),
   (civil 2024 3 1, 1550000000),
   (civil 2024 4 1, 1750000000),
   (civil 2024 5 1, 1500000000),
   (civil 2024 6 1, 1720000000),
   (civil 2024 7 1, 1575000000),
   (civil 2024 8 1, 1625000000),
   (civil 2024 9 1, 1500000000),
   (civil 2024 10 1, 1575000000),
   (civil 2024 11 1, 1750000000),
   (civil 2024 12 1, 2400000000),
   (civil 2025 1 1, 2430000000),
   (civil 2025 2 1, 2475000000)]

/-- The `_LAND_HISTORICAL_SEEDS` table of `history_repo.py` (VND/m²). -/
def LAND_HISTORICAL_SEEDS : List (ℤ × ℚ) :=
  [(civil 2023 2 13, 210000000),
   (civil 2023 6 1, 215000000),
   (civil 2023 10 1, 220000000),
   (civil 2024 2 10, 225000000),
   (civil 2024 6 1, 230000000),
   (civil 2024 10 1, 235000000),
   (civil 2025 2 14, 240000000),
   (civil 2025 6 1, 245000000),
   (civil 2025 10 1, 250000000),
   (civil 2026 1 15, 255000000)]

/-- The `_VN30_HISTORICAL_SEEDS` table of `history_repo.py` (index points). -/
def VN30_HISTORICAL_SEEDS : List (ℤ × ℚ) :=
  [(civil 2023 1 15, 1080.50),
   (civil 2023 2 10, 1087.36),
   (civil 2023 2 12, 1087.36),
   (civil 2023 3 1, 1095.00),
   (civil 2023 4 1, 1102.00),
   (civil 2023 5 1, 1110.00),
   (civil 2023 6 1, 1120.00),
   (civil 2023 7 1, 1135.00),
   (civil 2023 8 1, 1145.00),
   (civil 2023 9 1, 1150.00),
   (civil 2023 10 1, 1165.00),
   (civil 2023 11 1, 1180.00),
   (civil 2023 12 1, 1200.00),
   (civil 2024 1 1, 1210.00),
   (civil 2024 2 10, 1225.00),
   (civil 2024 3 1, 1240.00),
   (civil 2024 4 1, 1255.00),
   (civil 2024 5 1, 1270.00),
   (civil 2024 6 1, 1285.00),
   (civil 2024 7 1, 1300.00),
   (civil 2024 8 1, 1320.00),
   (civil 2024 9 1, 1340.00),
   (civil 2024 10 1, 1360.00),
   (civil 2024 11 1, 1385.00),
   (civil 2024 12 1, 1400.00),
   (civil 2025 1 1, 1420.00),
   (civil 2025 2 10, 1334.01),
   (civil 2025 2 14, 1334.01),
   (civil 2025 3 1, 1450.00),
   (civil 2025 4 1, 1480.00),
   (civil 2025 5 1, 1510.00),
   (civil 2025 6 1, 1540.00),
   (civil 2025 7 1, 1570.00),
   (civil 2025 8 1, 1600.00),
   (civil 2025 9 1, 1650.00),
   (civil 2025 10 1, 1700.00),
   (civil 2025 11 1, 1750.00),
   (civil 2025 12 1, 1800.00),
   (civil 2026 1 1, 1850.00),
   (civil 2026 2 10, 1950.00)]

/-- Modelled from the spec: the configured lookback periods `HISTORY_PERIODS`
(the config entry is absent from the source tree; the spec and the tests fix
the labels 1D, 1W, 1M, 1Y, 3Y in this order, with 1Y = 365 days and 3Y three
years of days). -/
def HISTORY_PERIODS : List (String × ℕ) :=
  [("1D", 1), ("1W", 7), ("1M", 30), ("1Y", 365), ("3Y", 1096)]

/-- One row of historical change output (`models.HistoricalChange`):
`change_percent` and `old_value` are set together or not at all. -/
structure HistoricalChange where
  period : String
  new_value : ℚ
  old_value : Option ℚ := none
  change_percent : Option ℚ := none
deriving DecidableEq

/-- Per-asset aggregate (`models.AssetHistoricalData`). -/
structure AssetHistoricalData where
  asset_name : String
  changes : List HistoricalChange
deriving DecidableEq

/-- The helper `_find_chogia_rate` of `history_repo.py`: search the fetched
rate dict at the target day, then +1, -1, +2, -2, +3, -3 days, returning the
first hit. -/
def find_chogia_rate (rates : List (ℤ × ℚ)) (target : ℤ) : Option ℚ :=
  [0, 1, 2, 3].findSome? fun off =>
    [(0 : ℤ), 1, -1].findSome? fun sign =>
      lookupDay rates (target + sign * off)

/-- The helper `_find_closest_price` of `history_repo.py`: search the fetched
price dict at the target day, then +1, -1, +2, -2, +3, -3 days. -/
def find_closest_price (prices : List (ℤ × ℚ)) (targetDay : ℤ) : Option ℚ :=
  [0, 1, 2, 3].findSome? fun off =>
    (lookupDay prices (targetDay + off)).orElse fun _ =>
      lookupDay prices (targetDay - off)

/-- The helper `_find_seed_rate` of `history_repo.py`: scan the seed table in
list order keeping the entry with the strictly smallest calendar-day distance
to the target that lies within `max_delta_days`; absent when no seed is
within the window.  (Seed dates in the source are valid date literals, so the
date-parse failure branch is vacuous here.) -/
def find_seed_rate (seeds : List (ℤ × ℚ)) (targetDay : ℤ)
    (max_delta_days : ℕ := 20) : Option ℚ :=
  (nearestWithin seeds targetDay max_delta_days).map Prod.snd

/-- Seed loop body shared by `_seed_historical_gold`,
`_seed_historical_usd_vnd`, `_seed_historical_bitcoin` and
`_seed_historical_land` in `history_repo.py`: record every seed
unconditionally (the store itself upserts per day). Also the body of the
`_backfill_*_history` helpers, which record every fetched day/value pair. -/
def plantSeeds (seeds : List (ℤ × ℚ)) (store : Entries) : Entries :=
  seeds.foldl (fun st s => record_snapshot st s.2 ⟨s.1, 0⟩) store

/-- The `_seed_historical_gold` step of `history_repo.py`. -/
def seed_historical_gold (store : Entries) : Entries :=
  plantSeeds SJC_HISTORICAL_SEEDS store

/-- The `_seed_historical_usd_vnd` step of `history_repo.py`. -/
def seed_historical_usd_vnd (store : Entries) : Entries :=
  plantSeeds USD_VND_HISTORICAL_SEEDS store

/-- The `_seed_historical_bitcoin` step of `history_repo.py`. -/
def seed_historical_bitcoin (store : Entries) : Entries :=
  plantSeeds BTC_VND_HISTORICAL_SEEDS store

/-- The `_seed_historical_land` step of `history_repo.py` (no overwrite
guard: every seed is recorded unconditionally). -/
def seed_historical_land (store : Entries) : Entries :=
  plantSeeds LAND_HISTORICAL_SEEDS store

/-- Loop body of `_seed_historical_vn30`: a seed is skipped whenever
`get_value_at` already resolves a value at the seed's day. -/
def vn30SeedStep (st : Entries) (s : ℤ × ℚ) : Entries :=
  if (get_value_at_day st s.1).isSome then st
  else record_snapshot st s.2 ⟨s.1, 0⟩

/-- The `_seed_historical_vn30` step of `history_repo.py`. -/
def seed_historical_vn30 (store : Entries) : Entries :=
  VN30_HISTORICAL_SEEDS.foldl vn30SeedStep store

/-- Build one `HistoricalChange` row as the per-period loop bodies of
`history_repo.py` do: `old_value` and `change_percent` are set together when
a historical value resolved, and left absent otherwise. -/
def mkChange (label : String) (current_value : ℚ) (old : Option ℚ) : HistoricalChange :=
  { period := label
    new_value := current_value
    old_value := old
    change_percent := old.map fun o => compute_change_percent o current_value }

/-- Per-period resolution of `_gold_changes`: webgia rates, then chogia
rates, then the local store, then (3Y only) the seed table with a 45-day
window. -/
def resolve_gold_old (webgia_rates chogia_rates : Option (List (ℤ × ℚ)))
    (store : Entries) (target : ℤ) (label : String) : Option ℚ :=
  (((match webgia_rates with
      | some r => find_chogia_rate r target
      | none => none) <|>
    (match chogia_rates with
      | some r => find_chogia_rate r target
      | none => none)) <|>
   get_value_at_day store target) <|>
  (if label = "3Y" then find_seed_rate SJC_HISTORICAL_SEEDS target 45 else none)

/-- The `_gold_changes` aggregation of `history_repo.py`, with the two live
fetch results as parameters (`none` models a failed fetch; chogia is only
consulted when webgia failed, as in the source). -/
def gold_changes (now : ℤ) (current_value : ℚ) (store : Entries)
    (webgia_rates chogia_rates : Option (List (ℤ × ℚ))) : AssetHistoricalData :=
  let chogiaEff := if webgia_rates.isSome then none else chogia_rates
  let store₁ := seed_historical_gold store
  let store₂ := match webgia_rates with
    | some r => if r.isEmpty then store₁ else plantSeeds r store₁
    | none => store₁
  let store₃ := match chogiaEff with
    | some r => if r.isEmpty then store₂ else plantSeeds r store₂
    | none => store₂
  { asset_name := "gold"
    changes := HISTORY_PERIODS.map fun p =>
      mkChange p.1 current_value
        (resolve_gold_old webgia_rates chogiaEff store₃ (now - p.2) p.1) }

/-- Per-period resolution of `_usd_vnd_changes`: chogia rates, then the
local store, then the seed table with the default 20-day window, for
every period. -/
def resolve_usd_vnd_old (chogia_rates : Option (List (ℤ × ℚ)))
    (store : Entries) (target : ℤ) : Option ℚ :=
  ((match chogia_rates with
     | some r => find_chogia_rate r target
     | none => none) <|>
   get_value_at_day store target) <|>
  find_seed_rate USD_VND_HISTORICAL_SEEDS target 20

/-- The `_usd_vnd_changes` aggregation of `history_repo.py`. -/
def usd_vnd_changes (now : ℤ) (current_value : ℚ) (store : Entries)
    (chogia_rates : Option (List (ℤ × ℚ))) : AssetHistoricalData :=
  let store₁ := seed_historical_usd_vnd store
  let store₂ := match chogia_rates with
    | some r => if r.isEmpty then store₁ else plantSeeds r store₁
    | none => store₁
  { asset_name := "usd_vnd"
    changes := HISTORY_PERIODS.map fun p =>
      mkChange p.1 current_value
        (resolve_usd_vnd_old chogia_rates store₂ (now - p.2)) }

/-- CoinGecko's free-tier cap on historical data (`_COINGECKO_MAX_DAYS`). -/
def COINGECKO_MAX_DAYS : ℕ := 365

/-- Per-period resolution of `_bitcoin_changes`: CoinGecko day prices (only
for periods within the free-tier cap), then the local store, then (3Y only)
the seed table with a 45-day window. -/
def resolve_bitcoin_old (price_history : Option (List (ℤ × ℚ)))
    (store : Entries) (target : ℤ) (label : String) (days : ℕ) : Option ℚ :=
  ((match price_history with
     | some r => if days ≤ COINGECKO_MAX_DAYS then find_closest_price r target else none
     | none => none) <|>
   get_value_at_day store target) <|>
  (if label = "3Y" then find_seed_rate BTC_VND_HISTORICAL_SEEDS target 45 else none)

/-- The `_bitcoin_changes` aggregation of `history_repo.py`. -/
def bitcoin_changes (now : ℤ) (current_value : ℚ) (store : Entries)
    (price_history : Option (List (ℤ × ℚ))) : AssetHistoricalData :=
  let store₁ := seed_historical_bitcoin store
  let store₂ := match price_history with
    | some r => if r.isEmpty then store₁ else plantSeeds r store₁
    | none => store₁
  { asset_name := "bitcoin"
    changes := HISTORY_PERIODS.map fun p =>
      mkChange p.1 current_value
        (resolve_bitcoin_old price_history store₂ (now - p.2) p.1 p.2) }

/-- Per-period resolution of `_vn30_changes`: VPS closes, then the local
store, then (3Y only) the seed table with a 45-day window. -/
def resolve_vn30_old (close_history : Option (List (ℤ × ℚ)))
    (store : Entries) (target : ℤ) (label : String) : Option ℚ :=
  ((match close_history with
     | some r => find_closest_price r target
     | none => none) <|>
   get_value_at_day store target) <|>
  (if label = "3Y" then find_seed_rate VN30_HISTORICAL_SEEDS target 45 else none)

/-- The `_vn30_changes` aggregation of `history_repo.py` (the VPS fetch
result is not backfilled into the store in the source). -/
def vn30_changes (now : ℤ) (current_value : ℚ) (store : Entries)
    (close_history : Option (List (ℤ × ℚ))) : AssetHistoricalData :=
  let store₁ := seed_historical_vn30 store
  { asset_name := "vn30"
    changes := HISTORY_PERIODS.map fun p =>
      mkChange p.1 current_value
        (resolve_vn30_old close_history store₁ (now - p.2) p.1) }

/-- Per-period resolution of `_land_changes`: the local store, then the seed
table with a 45-day window, for every period. -/
def resolve_land_old (store : Entries) (target : ℤ) : Option ℚ :=
  get_value_at_day store target <|>
  find_seed_rate LAND_HISTORICAL_SEEDS target 45

/-- The `_land_changes` aggregation of `history_repo.py` (no live source;
local store with seed-nearest fallback only). -/
def land_changes (now : ℤ) (current_value : ℚ) (store : Entries) : AssetHistoricalData :=
  let store₁ := seed_historical_land store
  { asset_name := "land"
    changes := HISTORY_PERIODS.map fun p =>
      mkChange p.1 current_value (resolve_land_old store₁ (now - p.2)) }

/-! ## Payload assembly (`generate_data.py`) -/

/-- First-match association-list lookup for string-keyed payload maps
(Python `dict` access). -/
def lookupKey {α : Type} (l : List (String × α)) (k : String) : Option α :=
  match l with
  | [] => none
  | (k', v) :: rest => if k' = k then some v else lookupKey rest k

/-- Replace the first binding of `k`, or append one (Python `dict` item
assignment / `setdefault`-then-mutate, preserving insertion order). -/
def upsertKey {α : Type} (l : List (String × α)) (k : String) (v : α) : List (String × α) :=
  match l with
  | [] => [(k, v)]
  | (k', w) :: rest =>
    if k' = k then (k', v) :: rest else (k', w) :: upsertKey rest k v

/-- The required-asset tuple `REQUIRED_ASSETS` of `generate_data.py`
(land is excluded). -/
def REQUIRED_ASSETS : List String := ["gold", "usd_vnd", "bitcoin", "vn30"]

/-- The `_safe_divide` helper of `generate_data.py`: absent when either
operand is absent or the denominator is zero, otherwise the exact quotient. -/
def safe_divide (numerator denominator : Option ℚ) : Option ℚ :=
  match numerator, denominator with
  | some n, some d => if d = 0 then none else some (n / d)
  | _, _ => none

/-- Modelled from the spec: the land benchmark midpoint
`LAND_BENCHMARK_MID_VND_PER_M2` (the config entry is absent from the source
tree; the tests fix min 230M, mid 255M, max 280M VND/m²). -/
def LAND_BENCHMARK_MID_VND_PER_M2 : ℚ := 255000000

/-- The four derived cross-asset comparisons of the land benchmark block. -/
structure LandComparisons where
  gold_tael_per_m2 : Option ℚ
  m2_per_gold_tael : Option ℚ
  m2_per_btc : Option ℚ
  m2_per_1m_usd : Option ℚ
deriving DecidableEq

/-- The comparison block computed by `_build_land_benchmark` of
`generate_data.py`, with the present-or-absent current values as inputs
(`data.gold.sell_price if data.gold else None`, etc.). -/
def build_land_benchmark_comparisons
    (gold_sell_price bitcoin_price usd_sell_rate : Option ℚ) : LandComparisons :=
  let midpoint := LAND_BENCHMARK_MID_VND_PER_M2
  let one_million_usd_vnd := usd_sell_rate.map fun r => r * 1000000
  { gold_tael_per_m2 := safe_divide (some midpoint) gold_sell_price
    m2_per_gold_tael := safe_divide gold_sell_price (some midpoint)
    m2_per_btc := safe_divide bitcoin_price (some midpoint)
    m2_per_1m_usd := safe_divide one_million_usd_vnd (some midpoint) }

/-- A current-value block of the exported payload, restricted to the fields
the health assessment inspects (`source`, and `sell_rate` for usd_vnd).
Sources are character lists so that the case folding of the fallback check
can be stated. -/
structure AssetBlock where
  source : Option (List Char) := none
  sell_rate : Option ℚ := none
deriving DecidableEq

/-- A serialized history row as `_serialize_history` emits it, restricted to
the fields the health assessment inspects. -/
structure ChangeRow where
  period : String
  change_percent : Option ℚ
deriving DecidableEq

/-- The exported payload: current-value blocks plus the `history` and
`timeseries` maps, all keyed by asset name. -/
structure Payload where
  current : List (String × AssetBlock)
  history : List (String × List ChangeRow)
  timeseries : List (String × List (ℤ × ℚ))
deriving DecidableEq

/-- The degradation reasons `_assess_payload_health` can record
(`missing_history` carries the offending period labels). -/
inductive Reason where
  | missing_current_section
  | missing_sell_rate
  | hardcoded_fallback_source
  | short_timeseries
  | missing_history (periods : List String)
deriving DecidableEq

/-- Per-asset health entry of the assessment result. -/
structure AssetHealth where
  status : String
  reasons : List Reason
  source : Option (List Char)
deriving DecidableEq

/-- The full result of `_assess_payload_health`: the health report plus the
severe flag and the degraded-asset list. -/
structure HealthAssessment where
  assets : List (String × AssetHealth)
  overall : String
  severe_degradation : Bool
  degraded_assets : List String
deriving DecidableEq

/-- Per-asset reason computation of `_assess_payload_health`, returning the
reasons in recorded order together with this asset's contribution to the
severe flag.  Mirrors the if/elif chain of the source: a missing block is
severe; a usd_vnd block without `sell_rate` is severe; a vn30 block is
checked for a fallback-labeled source (case-insensitively) and for a
timeseries shorter than 2 points; finally any history rows with absent
`change_percent` add a `missing_history` reason. -/
def assetBaseReasons (p : Payload) (asset : String) : List Reason × Bool :=
  match lookupKey p.current asset with
  | none => ([Reason.missing_current_section], true)
  | some blk =>
    if asset = "usd_vnd" ∧ blk.sell_rate = none then
      ([Reason.missing_sell_rate], true)
    else if asset = "vn30" then
      let srcLower := (blk.source.getD []).map Char.toLower
      let rs := if ("fallback".toList).isPrefixOf srcLower then
          [Reason.hardcoded_fallback_source] else []
      let series := (lookupKey p.timeseries "vn30").getD []
      (if series.length < 2 then rs ++ [Reason.short_timeseries] else rs, false)
    else ([], false)

def assetReasons (p : Payload) (asset : String) : List Reason × Bool :=
  let base := assetBaseReasons p asset
  match lookupKey p.history asset with
  | none => base
  | some rows =>
    let missing := (rows.filter fun c => c.change_percent = none).map ChangeRow.period
    if missing.isEmpty then base
    else (base.1 ++ [Reason.missing_history missing], base.2)

/-- The `_assess_payload_health` function of `generate_data.py`, iterating
over `REQUIRED_ASSETS` in order. -/
def assess_payload_health (p : Payload) : HealthAssessment :=
  let per : List (String × List Reason × Bool) :=
    REQUIRED_ASSETS.map fun a => (a, assetReasons p a)
  let degraded := (per.filter fun x => !x.2.1.isEmpty).map Prod.fst
  { assets := per.map fun x =>
      (x.1,
       { status := if x.2.1.isEmpty then "ok" else "degraded"
         reasons := x.2.1
         source := (lookupKey p.current x.1).bind AssetBlock.source })
    overall := if degraded.isEmpty then "ok" else "degraded"
    severe_degradation := per.any fun x => x.2.2
    degraded_assets := degraded }

/-- One iteration of `_restore_degraded_assets_from_lkg`: a degraded asset
absent from the previous payload is skipped; otherwise its current block is
overwritten from the previous payload, the asset is reported restored, and
its `history` and `timeseries` blocks are overwritten when the previous
payload has them. -/
def restoreStep (prev : Payload) (acc : Payload × List String) (asset : String) :
    Payload × List String :=
  match lookupKey prev.current asset with
  | none => acc
  | some blk =>
    let p₁ := { acc.1 with current := upsertKey acc.1.current asset blk }
    let p₂ := match lookupKey prev.history asset with
      | some h => { p₁ with history := upsertKey p₁.history asset h }
      | none => p₁
    let p₃ := match lookupKey prev.timeseries asset with
      | some t => { p₂ with timeseries := upsertKey p₂.timeseries asset t }
      | none => p₂
    (p₃, acc.2 ++ [asset])

/-- The `_restore_degraded_assets_from_lkg` function of `generate_data.py`,
returning the patched payload together with the list of restored assets. -/
def restore_degraded_assets_from_lkg (p prev : Payload) (degraded_assets : List String) :
    Payload × List String :=
  degraded_assets.foldl (restoreStep prev) (p, [])

/-- Point upsert of `merge_current_into_timeseries`: replace the first
point dated `today`, or append `[today, value]`, then re-sort ascending by
date (Python's stable `list.sort` keyed on the date). -/
def upsertTodayPoint (points : List (ℤ × ℚ)) (today : ℤ) (value : ℚ) : List (ℤ × ℚ) :=
  (upsertDay points today value).mergeSort fun a b => decide (a.1 ≤ b.1)

/-- Per-asset upsert of `merge_current_into_timeseries`: a missing current
value leaves the map unchanged; otherwise the asset's (possibly missing)
series receives the today point. -/
def upsertAssetSeries (m : List (String × List (ℤ × ℚ))) (key : String)
    (value : Option ℚ) (today : ℤ) : List (String × List (ℤ × ℚ)) :=
  match value with
  | none => m
  | some v => upsertKey m key (upsertTodayPoint ((lookupKey m key).getD []) today v)

/-- The `merge_current_into_timeseries` function of `generate_data.py`: drop
every point dated strictly after `today` from every series, then upsert the
current gold, usd_vnd, bitcoin and vn30 values (in that order) as today
points. -/
def merge_current_into_timeseries (timeseries : List (String × List (ℤ × ℚ)))
    (gold usd_vnd bitcoin vn30 : Option ℚ) (today : ℤ) :
    List (String × List (ℤ × ℚ)) :=
  let merged := timeseries.map fun ap =>
    (ap.1, ap.2.filter fun pt => decide (pt.1 ≤ today))
  let m₁ := upsertAssetSeries merged "gold" gold today
  let m₂ := upsertAssetSeries m₁ "usd_vnd" usd_vnd today
  let m₃ := upsertAssetSeries m₂ "bitcoin" bitcoin today
  upsertAssetSeries m₃ "vn30" vn30 today

/-- A concrete payload with a fallback-sourced vn30 block and a one-point
vn30 timeseries, as in the regression test. -/
def samplePayload : Payload :=
  { current :=
      [("gold", { source := some "DOJI".toList }),
       ("usd_vnd", { source := some "chogia.vn".toList, sell_rate := some 26550 }),
       ("bitcoin", { source := some "CoinMarketCap".toList }),
       ("vn30", { source := some "Fallback (Scraping Failed)".toList })]
    history := []
    timeseries := [("vn30", [(0, 1950)])] }

/-! ## Helper lemmas: association lists keyed by day -/

theorem lookupDay_upsertDay_self (l : Entries) (d : ℤ) (v : ℚ) :
    lookupDay (upsertDay l d v) d = some v := by
  induction l with
  | nil => simp [upsertDay, lookupDay]
  | cons e rest ih =>
    by_cases h : e.1 = d
    · simp [upsertDay, lookupDay, h]
    · simp [upsertDay, lookupDay, h, ih]

theorem lookupDay_upsertDay_ne (l : Entries) (d d' : ℤ) (v : ℚ) (h : d ≠ d') :
    lookupDay (upsertDay l d v) d' = lookupDay l d' := by
  induction l with
  | nil => simp [upsertDay, lookupDay, h]
  | cons e rest ih =>
    by_cases he : e.1 = d
    · simp [upsertDay, lookupDay, he, h, ih]
    · simp [upsertDay, lookupDay, he, h, ih]

theorem lookupDay_mem {l : Entries} {d : ℤ} {v : ℚ} (h : lookupDay l d = some v) :
    (d, v) ∈ l := by
  induction l with
  | nil => simp [lookupDay] at h
  | cons e rest ih =>
    by_cases he : e.1 = d
    · simp only [lookupDay, if_pos he, Option.some.injEq] at h
      have : e = (d, v) := by cases e; simp_all
      rw [← this]
      exact List.mem_cons_self _ _
    · simp only [lookupDay, if_neg he] at h
      exact List.mem_cons_of_mem _ (ih h)

/-! ## Helper lemmas: the nearest-entry scan -/

theorem nearestStep_cases (t : ℤ) (tol : ℕ) (acc : Option (ℕ × ℚ)) (s : ℤ × ℚ) :
    (tol < dayDist t s ∧ nearestStep t tol acc s = acc) ∨
    (dayDist t s ≤ tol ∧ acc = none ∧
      nearestStep t tol acc s = some (dayDist t s, s.2)) ∨
    (∃ bδ bv, dayDist t s ≤ tol ∧ acc = some (bδ, bv) ∧
      ((dayDist t s < bδ ∧ nearestStep t tol acc s = some (dayDist t s, s.2)) ∨
       (bδ ≤ dayDist t s ∧ nearestStep t tol acc s = acc))) := by
  by_cases hout : (s.1 - t).natAbs > tol
  · exact Or.inl ⟨hout, by cases acc <;> simp [nearestStep, if_pos hout]⟩
  · have hin : dayDist t s ≤ tol := Nat.le_of_not_lt hout
    cases acc with
    | none =>
      exact Or.inr (Or.inl ⟨hin, rfl, by simp [nearestStep, if_neg hout, dayDist]⟩)
    | some b =>
      rcases b with ⟨bδ, bv⟩
      refine Or.inr (Or.inr ⟨bδ, bv, hin, rfl, ?_⟩)
      by_cases hlt : (s.1 - t).natAbs < bδ
      · exact Or.inl ⟨hlt, by simp [nearestStep, if_neg hout, if_pos hlt, dayDist]⟩
      · exact Or.inr ⟨Nat.le_of_not_lt hlt, by simp [nearestStep, if_neg hout, if_neg hlt]⟩

theorem nearestStep_eq_none_iff (t : ℤ) (tol : ℕ) (acc : Option (ℕ × ℚ)) (s : ℤ × ℚ) :
    nearestStep t tol acc s = none ↔ acc = none ∧ tol < dayDist t s := by
  rcases nearestStep_cases t tol acc s with ⟨h1, h2⟩ | ⟨h1, h2, h3⟩ |
      ⟨bδ, bv, h1, h2, ⟨h3, h4⟩ | ⟨h3, h4⟩⟩
  · rw [h2]
    exact ⟨fun h => ⟨h, h1⟩, fun h => h.1⟩
  · rw [h3]
    exact ⟨fun hh => Option.noConfusion hh, fun hh => absurd hh.2 (by omega)⟩
  · rw [h4]
    exact ⟨fun hh => Option.noConfusion hh, fun hh => absurd hh.2 (by omega)⟩
  · rw [h4, h2]
    simp

theorem nearestStep_tol {t : ℤ} {tol : ℕ} {acc : Option (ℕ × ℚ)} {s : ℤ × ℚ}
    (h : ∀ bδ bv, acc = some (bδ, bv) → bδ ≤ tol) :
    ∀ bδ bv, nearestStep t tol acc s = some (bδ, bv) → bδ ≤ tol := by
  intro bδ bv hs
  rcases nearestStep_cases t tol acc s with ⟨h1, h2⟩ | ⟨h1, h2, h3⟩ |
      ⟨aδ, av, h1, h2, ⟨h3, h4⟩ | ⟨h3, h4⟩⟩
  · exact h _ _ (h2 ▸ hs)
  · rw [h3] at hs
    cases hs
    exact h1
  · rw [h4] at hs
    cases hs
    exact h1
  · exact h _ _ (h4 ▸ hs)

theorem nearest_go_none (t : ℤ) (tol : ℕ) (l : List (ℤ × ℚ)) (acc : Option (ℕ × ℚ)) :
    l.foldl (nearestStep t tol) acc = none ↔
      acc = none ∧ ∀ s ∈ l, tol < dayDist t s := by
  induction l generalizing acc with
  | nil => simp
  | cons s rest ih =>
    rw [List.foldl_cons, ih, nearestStep_eq_none_iff]
    simp only [List.mem_cons, forall_eq_or_imp]
    tauto

theorem nearest_go_some (t : ℤ) (tol : ℕ) (l : List (ℤ × ℚ)) :
    ∀ (acc : Option (ℕ × ℚ)), (∀ bδ bv, acc = some (bδ, bv) → bδ ≤ tol) →
    ∀ δ v, l.foldl (nearestStep t tol) acc = some (δ, v) →
      (acc = some (δ, v) ∧ ∀ s ∈ l, δ ≤ dayDist t s) ∨
      (∃ l₁ s l₂, l = l₁ ++ s :: l₂ ∧ dayDist t s = δ ∧ s.2 = v ∧ δ ≤ tol ∧
        (∀ bδ bv, acc = some (bδ, bv) → δ < bδ) ∧
        (∀ u ∈ l₁, δ < dayDist t u) ∧ (∀ u ∈ l₂, δ ≤ dayDist t u)) := by
  induction l with
  | nil =>
    intro acc _ δ v h
    exact Or.inl ⟨h, by simp⟩
  | cons s rest ih =>
    intro acc hacc δ v h
    rw [List.foldl_cons] at h
    have hcases := nearestStep_cases t tol acc s
    rcases ih (nearestStep t tol acc s) (nearestStep_tol hacc) δ v h with
      ⟨hstep, hrest⟩ | ⟨l₁, w, l₂, hsplit, hdist, hval, htol, haccδ, hl₁, hl₂⟩
    · -- the value coming out of the step survived the rest of the scan
      rcases hcases with ⟨h1, h2⟩ | ⟨h1, h2, h3⟩ |
          ⟨bδ, bv, h1, h2, ⟨h3, h4⟩ | ⟨h3, h4⟩⟩
      · -- s out of tolerance: the step left acc unchanged
        rw [h2] at hstep
        refine Or.inl ⟨hstep, ?_⟩
        intro u hu
        rcases List.mem_cons.mp hu with rfl | hu
        · exact le_of_lt (lt_of_le_of_lt (hacc _ _ hstep) h1)
        · exact hrest u hu
      · -- acc empty and s in tolerance: the step selected s
        rw [h3] at hstep
        injection hstep with hstep
        have hδ : dayDist t s = δ := congrArg Prod.fst hstep
        have hv : s.2 = v := congrArg Prod.snd hstep
        exact Or.inr ⟨[], s, rest, by simp, hδ, hv, hδ ▸ h1,
          by rw [h2]; rintro _ _ ⟨⟩, by simp, hrest⟩
      · -- the step replaced the accumulator by s
        rw [h4] at hstep
        injection hstep with hstep
        have hδ : dayDist t s = δ := congrArg Prod.fst hstep
        have hv : s.2 = v := congrArg Prod.snd hstep
        refine Or.inr ⟨[], s, rest, by simp, hδ, hv, hδ ▸ h1, ?_, by simp, hrest⟩
        rw [h2]
        rintro bδ' bv' h'
        cases h'
        exact hδ ▸ h3
      · -- the step kept the accumulator
        rw [h4] at hstep
        refine Or.inl ⟨hstep, ?_⟩
        intro u hu
        rcases List.mem_cons.mp hu with rfl | hu
        · rw [hstep] at h2
          injection h2 with h2
          cases h2
          exact h3
        · exact hrest u hu
    · -- the winner came from the rest of the scan; s joins the strict prefix
      have hsless : δ < dayDist t s := by
        rcases hcases with ⟨h1, h2⟩ | ⟨h1, h2, h3⟩ |
            ⟨bδ, bv, h1, h2, ⟨h3, h4⟩ | ⟨h3, h4⟩⟩
        · exact lt_of_le_of_lt htol h1
        · exact haccδ _ _ h3
        · exact haccδ _ _ h4
        · exact lt_of_lt_of_le (haccδ _ _ (h4.trans h2)) h3
      refine Or.inr ⟨s :: l₁, w, l₂, by rw [hsplit, List.cons_append], hdist, hval, htol,
        ?_, ?_, hl₂⟩
      · intro bδ bv haccb
        rcases hcases with ⟨h1, h2⟩ | ⟨h1, h2, h3⟩ |
            ⟨aδ, av, h1, h2, ⟨h3, h4⟩ | ⟨h3, h4⟩⟩
        · exact haccδ bδ bv (h2.trans haccb)
        · rw [h2] at haccb
          cases haccb
        · rw [haccb] at h2
          injection h2 with h2
          cases h2
          exact lt_trans (haccδ _ _ h4) h3
        · exact haccδ bδ bv (h4.trans haccb)
      · intro u hu
        rcases List.mem_cons.mp hu with rfl | hu
        · exact hsless
        · exact hl₁ u hu

/-- Characterization of the shared nearest-entry scan: absent exactly when
nothing is within tolerance, and otherwise the first entry attaining the
minimal calendar-day distance wins. -/
theorem nearestWithin_none_iff (l : List (ℤ × ℚ)) (t : ℤ) (tol : ℕ) :
    nearestWithin l t tol = none ↔ ∀ s ∈ l, tol < dayDist t s := by
  unfold nearestWithin
  rw [nearest_go_none]
  simp

theorem nearestWithin_some (l : List (ℤ × ℚ)) (t : ℤ) (tol : ℕ) (δ : ℕ) (v : ℚ)
    (h : nearestWithin l t tol = some (δ, v)) :
    ∃ l₁ s l₂, l = l₁ ++ s :: l₂ ∧ dayDist t s = δ ∧ s.2 = v ∧ δ ≤ tol ∧
      (∀ u ∈ l₁, δ < dayDist t u) ∧ (∀ u ∈ l₂, δ ≤ dayDist t u) := by
  rcases nearest_go_some t tol l none (by simp) δ v h with ⟨h1, _⟩ | ⟨l₁, s, l₂, hs⟩
  · exact absurd h1 (by simp)
  · exact ⟨l₁, s, l₂, hs.1, hs.2.1, hs.2.2.1, hs.2.2.2.1, hs.2.2.2.2.2.1, hs.2.2.2.2.2.2⟩

/-- C10: for every seed list, target day and tolerance, `_find_seed_rate`
returns the value of the first seed in list order whose absolute calendar-day
distance to the target is minimal among all seeds within `max_delta_days`,
and returns absent when no seed lies within the window; on a distance tie the
seed appearing earlier in the list wins. -/
theorem find_seed_rate_first_minimal (seeds : List (ℤ × ℚ)) (targetDay : ℤ) (tol : ℕ) :
    (find_seed_rate seeds targetDay tol = none ↔
      ∀ s ∈ seeds, tol < dayDist targetDay s) ∧
    (∀ v, find_seed_rate seeds targetDay tol = some v →
      ∃ l₁ s l₂, seeds = l₁ ++ s :: l₂ ∧ s.2 = v ∧
        dayDist targetDay s ≤ tol ∧
        (∀ u ∈ seeds, dayDist targetDay s ≤ dayDist targetDay u) ∧
        (∀ u ∈ l₁, dayDist targetDay s < dayDist targetDay u)) := by
  constructor
  · rw [show find_seed_rate seeds targetDay tol =
        (nearestWithin seeds targetDay tol).map Prod.snd from rfl,
      Option.map_eq_none']
    exact nearestWithin_none_iff seeds targetDay tol
  · intro v hv
    rw [show find_seed_rate seeds targetDay tol =
        (nearestWithin seeds targetDay tol).map Prod.snd from rfl,
      Option.map_eq_some'] at hv
    rcases hv with ⟨⟨δ, v₀⟩, hn, hv₀⟩
    rcases nearestWithin_some seeds targetDay tol δ v₀ hn with
      ⟨l₁, s, l₂, hsplit, hdist, hval, htol, hl₁, hl₂⟩
    refine ⟨l₁, s, l₂, hsplit, by rw [hval]; exact hv₀, hdist ▸ htol, ?_, ?_⟩
    · intro u hu
      rw [hsplit] at hu
      rcases List.mem_append.mp hu with hu | hu
      · exact le_of_lt (hdist ▸ hl₁ u hu)
      · rcases List.mem_cons.mp hu with rfl | hu
        · exact le_refl _
        · exact hdist ▸ hl₂ u hu
    · intro u hu
      exact hdist ▸ hl₁ u hu

/-- Witness for C10 at a concrete tie: seeds at days 10 and 16 are both 3
days from target day 13 and the earlier one (value 5) wins. -/
theorem find_seed_rate_first_minimal_w :
    find_seed_rate [((10 : ℤ), (5 : ℚ)), (16, 7)] 13 20 = some 5 ∧
    (∃ l₁ s l₂, ([((10 : ℤ), (5 : ℚ)), (16, 7)] : List (ℤ × ℚ)) = l₁ ++ s :: l₂ ∧
      s.2 = 5 ∧ dayDist 13 s ≤ 20 ∧
      (∀ u ∈ ([((10 : ℤ), (5 : ℚ)), (16, 7)] : List (ℤ × ℚ)),
        dayDist 13 s ≤ dayDist 13 u) ∧
      (∀ u ∈ l₁, dayDist 13 s < dayDist 13 u)) :=
  ⟨by decide, (find_seed_rate_first_minimal [((10 : ℤ), (5 : ℚ)), (16, 7)] 13 20).2 5
    (by decide)⟩

/-- C4: `get_value_at` returns the value of a stored entry at minimal
calendar-day distance from the target's calendar day when that distance is at
most 3, compares calendar days rather than wall-clock deltas (an entry
recorded 3 calendar days but more than 72 raw hours away still matches), and
returns absent exactly when the history is empty or every entry is more than
3 calendar days away. -/
theorem get_value_at_calendar_day_spec :
    (∀ (entries : Entries) (target : Timestamp),
      (get_value_at entries target = none ↔
        ∀ e ∈ entries, MAX_LOOKUP_TOLERANCE_DAYS < dayDist target.day e) ∧
      (∀ v, get_value_at entries target = some v →
        ∃ e ∈ entries, e.2 = v ∧ dayDist target.day e ≤ MAX_LOOKUP_TOLERANCE_DAYS ∧
          ∀ u ∈ entries, dayDist target.day e ≤ dayDist target.day u)) ∧
    (∀ (value : ℚ) (ts₁ ts₂ : Timestamp), 0 < value →
      ts₂.day - ts₁.day = 3 →
      72 * 3600 < 86400 * (ts₂.day - ts₁.day) + (ts₂.sec - ts₁.sec) →
      get_value_at (record_snapshot [] value ts₁) ts₂ = some value) := by
  constructor
  · intro entries target
    constructor
    · rw [show get_value_at entries target =
          (nearestWithin entries target.day MAX_LOOKUP_TOLERANCE_DAYS).map Prod.snd from rfl,
        Option.map_eq_none']
      exact nearestWithin_none_iff entries target.day MAX_LOOKUP_TOLERANCE_DAYS
    · intro v hv
      rw [show get_value_at entries target =
          (nearestWithin entries target.day MAX_LOOKUP_TOLERANCE_DAYS).map Prod.snd from rfl,
        Option.map_eq_some'] at hv
      rcases hv with ⟨⟨δ, v₀⟩, hn, hv₀⟩
      rcases nearestWithin_some entries target.day MAX_LOOKUP_TOLERANCE_DAYS δ v₀ hn with
        ⟨l₁, s, l₂, hsplit, hdist, hval, htol, hl₁, hl₂⟩
      refine ⟨s, by rw [hsplit]; exact List.mem_append_right _ (List.mem_cons_self _ _),
        by rw [hval]; exact hv₀, hdist ▸ htol, ?_⟩
      intro u hu
      rw [hsplit] at hu
      rcases List.mem_append.mp hu with hu | hu
      · exact le_of_lt (hdist ▸ hl₁ u hu)
      · rcases List.mem_cons.mp hu with rfl | hu
        · exact le_refl _
        · exact hdist ▸ hl₂ u hu
  · intro value ts₁ ts₂ hpos hday _
    have h1 : record_snapshot [] value ts₁ = [(ts₁.day, value)] := by
      simp [record_snapshot, hpos, upsertDay]
    rw [show get_value_at (record_snapshot [] value ts₁) ts₂ =
        (nearestWithin (record_snapshot [] value ts₁) ts₂.day
          MAX_LOOKUP_TOLERANCE_DAYS).map Prod.snd from rfl, h1]
    have h2 : (ts₁.day - ts₂.day).natAbs = 3 := by omega
    simp [nearestWithin, nearestStep, MAX_LOOKUP_TOLERANCE_DAYS, h2]

/-- Witness for C4 at the test's concrete data: a value recorded at
2023-02-10T00:00:00 is found for target 2023-02-13T19:33:00, which is 3
calendar days but 329580 seconds (more than 72 hours) later. -/
theorem get_value_at_calendar_day_spec_w :
    (0 : ℚ) < 66800000 ∧
    (Timestamp.mk (civil 2023 2 13) 70380).day - (Timestamp.mk (civil 2023 2 10) 0).day = 3 ∧
    get_value_at (record_snapshot [] 66800000 ⟨civil 2023 2 10, 0⟩)
      ⟨civil 2023 2 13, 70380⟩ = some 66800000 :=
  ⟨by decide, by decide,
    get_value_at_calendar_day_spec.2 66800000 ⟨civil 2023 2 10, 0⟩ ⟨civil 2023 2 13, 70380⟩
      (by decide) (by decide) (by decide)⟩

/-! ## Rounding lemmas for the change-percent computation -/

theorem roundHalfEvenInt_close (q : ℚ) : |(roundHalfEvenInt q : ℚ) - q| ≤ 1 / 2 := by
  unfold roundHalfEvenInt
  have h0 : (⌊q⌋ : ℚ) ≤ q := Int.floor_le q
  have h1 : q < ⌊q⌋ + 1 := Int.lt_floor_add_one q
  split
  · rename_i h
    rw [abs_le]
    constructor <;> push_cast <;> linarith
  · split
    · rename_i h h'
      push_neg at h
      rw [abs_le]
      constructor <;> push_cast <;> linarith
    · rename_i h h'
      push_neg at h h'
      have heq : q - ⌊q⌋ = 1 / 2 := le_antisymm h' h
      split <;> rw [abs_le] <;> constructor <;> push_cast <;> linarith

theorem quantize2_close (q : ℚ) : |quantize2 q - q| ≤ 1 / 200 := by
  have h := roundHalfEvenInt_close (q * 100)
  have h2 : quantize2 q - q = ((roundHalfEvenInt (q * 100) : ℚ) - q * 100) / 100 := by
    unfold quantize2
    ring
  rw [h2, abs_div, abs_of_pos (by norm_num : (0 : ℚ) < 100)]
  linarith

/-- C9: `_compute_change_percent` returns exactly 0 when the old value is 0,
and otherwise returns `(new - old) / old * 100` rounded to two decimal places
(the result is an integer number of hundredths within half a hundredth of the
exact value); in particular the four documented examples hold. -/
theorem compute_change_percent_spec :
    (∀ old_value new_value : ℚ, old_value = 0 →
      compute_change_percent old_value new_value = 0) ∧
    (∀ old_value new_value : ℚ, old_value ≠ 0 →
      (∃ n : ℤ, compute_change_percent old_value new_value = (n : ℚ) / 100) ∧
      |compute_change_percent old_value new_value -
        (new_value - old_value) / old_value * 100| ≤ 1 / 200) ∧
    compute_change_percent 100 120 = 20 ∧
    compute_change_percent 100 80 = -20 ∧
    compute_change_percent 100 100 = 0 ∧
    compute_change_percent 0 100 = 0 := by
  refine ⟨?_, ?_, ?_, ?_, ?_, ?_⟩
  · intro o n ho
    simp [compute_change_percent, ho]
  · intro o n ho
    rw [show compute_change_percent o n = quantize2 ((n - o) / o * 100) from by
      simp [compute_change_percent, ho]]
    exact ⟨⟨roundHalfEvenInt ((n - o) / o * 100 * 100), rfl⟩,
      quantize2_close ((n - o) / o * 100)⟩
  · norm_num [compute_change_percent, quantize2, roundHalfEvenInt]
  · norm_num [compute_change_percent, quantize2, roundHalfEvenInt]
  · norm_num [compute_change_percent, quantize2, roundHalfEvenInt]
  · norm_num [compute_change_percent]

/-- Witness for C9: the zero-guard and the rounding description applied at
the concrete pair (100, 120). -/
theorem compute_change_percent_spec_w :
    compute_change_percent 0 55 = 0 ∧
    (∃ n : ℤ, compute_change_percent 100 120 = (n : ℚ) / 100) ∧
    |compute_change_percent 100 120 - (120 - 100) / 100 * 100| ≤ 1 / 200 :=
  ⟨compute_change_percent_spec.1 0 55 rfl,
   (compute_change_percent_spec.2.1 100 120 (by decide)).1,
   (compute_change_percent_spec.2.1 100 120 (by decide)).2⟩

/-! ## Seeding lemmas -/

theorem lookupDay_record_snapshot_ne (st : Entries) (v : ℚ) (ts : Timestamp) (d : ℤ)
    (h : ts.day ≠ d) : lookupDay (record_snapshot st v ts) d = lookupDay st d := by
  unfold record_snapshot
  split
  · exact lookupDay_upsertDay_ne st ts.day d v h
  · rfl

theorem plantSeeds_lookup_not_mem (seeds : List (ℤ × ℚ)) (d : ℤ)
    (h : ∀ s ∈ seeds, s.1 ≠ d) :
    ∀ st : Entries, lookupDay (plantSeeds seeds st) d = lookupDay st d := by
  induction seeds with
  | nil => intro st; rfl
  | cons a rest ih =>
    intro st
    rw [show plantSeeds (a :: rest) st =
        plantSeeds rest (record_snapshot st a.2 ⟨a.1, 0⟩) from rfl,
      ih (fun s hs => h s (List.mem_cons_of_mem _ hs)),
      lookupDay_record_snapshot_ne st a.2 ⟨a.1, 0⟩ d (h a (List.mem_cons_self _ _))]

theorem plantSeeds_lookup_seed (seeds : List (ℤ × ℚ))
    (hnd : (seeds.map Prod.fst).Nodup) (hpos : ∀ s ∈ seeds, 0 < s.2) :
    ∀ st : Entries, ∀ s ∈ seeds, lookupDay (plantSeeds seeds st) s.1 = some s.2 := by
  induction seeds with
  | nil => intro st s hs; simp at hs
  | cons a rest ih =>
    intro st s hs
    rw [List.map_cons, List.nodup_cons] at hnd
    rcases List.mem_cons.mp hs with rfl | hs
    · rw [show plantSeeds (s :: rest) st =
          plantSeeds rest (record_snapshot st s.2 ⟨s.1, 0⟩) from rfl,
        plantSeeds_lookup_not_mem rest s.1
          (fun u hu hud => hnd.1 (hud ▸ List.mem_map_of_mem Prod.fst hu))]
      unfold record_snapshot
      rw [if_pos (hpos s (List.mem_cons_self _ _))]
      exact lookupDay_upsertDay_self st s.1 s.2
    · exact ih hnd.2 (fun u hu => hpos u (List.mem_cons_of_mem _ hu)) _ s hs

theorem get_value_at_day_isSome_of_mem {st : Entries} {d : ℤ} {w : ℚ}
    (h : (d, w) ∈ st) : (get_value_at_day st d).isSome = true := by
  rw [get_value_at_day, Option.isSome_map']
  rcases hn : nearestWithin st d MAX_LOOKUP_TOLERANCE_DAYS with _ | p
  · rw [nearestWithin_none_iff] at hn
    exact absurd (hn (d, w) h) (by simp [dayDist])
  · rfl

theorem vn30SeedStep_preserves (st : Entries) (s : ℤ × ℚ) (d : ℤ) (w : ℚ)
    (h : lookupDay st d = some w) : lookupDay (vn30SeedStep st s) d = some w := by
  unfold vn30SeedStep
  split
  · exact h
  · rename_i hguard
    by_cases hd : s.1 = d
    · exact absurd (hd ▸ get_value_at_day_isSome_of_mem (lookupDay_mem h)) hguard
    · rw [lookupDay_record_snapshot_ne st s.2 ⟨s.1, 0⟩ d hd]
      exact h

theorem guarded_fold_preserves (seeds : List (ℤ × ℚ)) :
    ∀ (st : Entries) (d : ℤ) (w : ℚ), lookupDay st d = some w →
      lookupDay (seeds.foldl vn30SeedStep st) d = some w := by
  induction seeds with
  | nil => intro st d w h; exact h
  | cons a rest ih =>
    intro st d w h
    rw [List.foldl_cons]
    exact ih _ d w (vn30SeedStep_preserves st a d w h)

/-- C3 counterexample: land seeding is not protective.  A store holding the
value 999 for 2023-02-13 is overwritten with the seed value 210000000 by
re-running `_seed_historical_land`. -/
theorem land_seeding_overwrites_ce :
    lookupDay [((civil 2023 2 13 : ℤ), (999 : ℚ))] (civil 2023 2 13) = some 999 ∧
    lookupDay (seed_historical_land [((civil 2023 2 13 : ℤ), (999 : ℚ))])
      (civil 2023 2 13) = some 210000000 :=
  ⟨by simp [lookupDay],
   plantSeeds_lookup_seed LAND_HISTORICAL_SEEDS (by decide) (by decide)
     [((civil 2023 2 13 : ℤ), (999 : ℚ))] (civil 2023 2 13, 210000000) (by decide)⟩

/-- C3 (amended): seeding is protective for vn30 only — re-running the vn30
seeding step never changes a day that already has a store entry — while the
gold, usd_vnd, bitcoin AND land seeding steps are authoritative: re-running
them always writes the seed value for each seed date. -/
theorem seeding_protective_vs_authoritative :
    (∀ (store : Entries) (day : ℤ) (w : ℚ), lookupDay store day = some w →
      lookupDay (seed_historical_vn30 store) day = some w) ∧
    (∀ store : Entries, ∀ s ∈ SJC_HISTORICAL_SEEDS,
      lookupDay (seed_historical_gold store) s.1 = some s.2) ∧
    (∀ store : Entries, ∀ s ∈ USD_VND_HISTORICAL_SEEDS,
      lookupDay (seed_historical_usd_vnd store) s.1 = some s.2) ∧
    (∀ store : Entries, ∀ s ∈ BTC_VND_HISTORICAL_SEEDS,
      lookupDay (seed_historical_bitcoin store) s.1 = some s.2) ∧
    (∀ store : Entries, ∀ s ∈ LAND_HISTORICAL_SEEDS,
      lookupDay (seed_historical_land store) s.1 = some s.2) :=
  ⟨fun store day w h => guarded_fold_preserves VN30_HISTORICAL_SEEDS store day w h,
   plantSeeds_lookup_seed SJC_HISTORICAL_SEEDS (by decide) (by decide),
   plantSeeds_lookup_seed USD_VND_HISTORICAL_SEEDS (by decide) (by decide),
   plantSeeds_lookup_seed BTC_VND_HISTORICAL_SEEDS (by decide) (by decide),
   plantSeeds_lookup_seed LAND_HISTORICAL_SEEDS (by decide) (by decide)⟩

/-- Witness for C3 (amended): a pre-existing vn30 snapshot at 2023-02-12
survives re-seeding, while gold seeding writes its 2023-02-12 anchor into an
empty store. -/
theorem seeding_protective_vs_authoritative_w :
    lookupDay (seed_historical_vn30 [((civil 2023 2 12 : ℤ), (9999 : ℚ))])
      (civil 2023 2 12) = some 9999 ∧
    lookupDay (seed_historical_gold []) (civil 2023 2 12) = some 66800000 :=
  ⟨seeding_protective_vs_authoritative.1 [((civil 2023 2 12 : ℤ), (9999 : ℚ))]
      (civil 2023 2 12) 9999 (by simp [lookupDay]),
   seeding_protective_vs_authoritative.2.1 [] (civil 2023 2 12, 66800000) (by decide)⟩

/-! ## Shape of the per-asset change output -/

theorem mkChange_map_period (periods : List (String × ℕ)) (cur : ℚ)
    (f : String × ℕ → Option ℚ) :
    (periods.map fun p => mkChange p.1 cur (f p)).map HistoricalChange.period =
      periods.map Prod.fst := by
  rw [List.map_map]
  rfl

theorem mkChange_present_iff (periods : List (String × ℕ)) (cur : ℚ)
    (f : String × ℕ → Option ℚ) :
    ∀ ch ∈ periods.map fun p => mkChange p.1 cur (f p),
      (ch.change_percent.isSome ↔ ch.old_value.isSome) := by
  intro ch hch
  rcases List.mem_map.mp hch with ⟨p, _, rfl⟩
  simp [mkChange]

/-- C2: every per-asset change computation returns exactly one
`HistoricalChange` per configured period, in configured order (the list of
period labels of the output equals the configured label list), and
`change_percent` is present iff `old_value` is present — for every input,
including total live-source failure and an empty store. -/
theorem changes_per_period_shape :
    (∀ (now : ℤ) (cur : ℚ) (store : Entries) (w c : Option (List (ℤ × ℚ))),
      (gold_changes now cur store w c).changes.map HistoricalChange.period =
        HISTORY_PERIODS.map Prod.fst ∧
      ∀ ch ∈ (gold_changes now cur store w c).changes,
        (ch.change_percent.isSome ↔ ch.old_value.isSome)) ∧
    (∀ (now : ℤ) (cur : ℚ) (store : Entries) (c : Option (List (ℤ × ℚ))),
      (usd_vnd_changes now cur store c).changes.map HistoricalChange.period =
        HISTORY_PERIODS.map Prod.fst ∧
      ∀ ch ∈ (usd_vnd_changes now cur store c).changes,
        (ch.change_percent.isSome ↔ ch.old_value.isSome)) ∧
    (∀ (now : ℤ) (cur : ℚ) (store : Entries) (ph : Option (List (ℤ × ℚ))),
      (bitcoin_changes now cur store ph).changes.map HistoricalChange.period =
        HISTORY_PERIODS.map Prod.fst ∧
      ∀ ch ∈ (bitcoin_changes now cur store ph).changes,
        (ch.change_percent.isSome ↔ ch.old_value.isSome)) ∧
    (∀ (now : ℤ) (cur : ℚ) (store : Entries) (ch' : Option (List (ℤ × ℚ))),
      (vn30_changes now cur store ch').changes.map HistoricalChange.period =
        HISTORY_PERIODS.map Prod.fst ∧
      ∀ ch ∈ (vn30_changes now cur store ch').changes,
        (ch.change_percent.isSome ↔ ch.old_value.isSome)) ∧
    (∀ (now : ℤ) (cur : ℚ) (store : Entries),
      (land_changes now cur store).changes.map HistoricalChange.period =
        HISTORY_PERIODS.map Prod.fst ∧
      ∀ ch ∈ (land_changes now cur store).changes,
        (ch.change_percent.isSome ↔ ch.old_value.isSome)) :=
  by
  refine ⟨fun now cur store w c => ?_, fun now cur store c => ?_,
    fun now cur store ph => ?_, fun now cur store ch' => ?_,
    fun now cur store => ?_⟩ <;>
    simp only [gold_changes, usd_vnd_changes, bitcoin_changes, vn30_changes,
      land_changes] <;>
    exact ⟨mkChange_map_period HISTORY_PERIODS cur _,
      mkChange_present_iff HISTORY_PERIODS cur _⟩

/-- Witness for C2: with every live source down and an empty store, gold
still returns all five configured periods in order, and its 1D change (which
resolved no historical value) has absent old_value and change_percent
together. -/
theorem changes_per_period_shape_w :
    (gold_changes (civil 2032 1 1) 5 [] none none).changes.map HistoricalChange.period =
      HISTORY_PERIODS.map Prod.fst ∧
    mkChange "1D" (5 : ℚ) none ∈ (gold_changes (civil 2032 1 1) 5 [] none none).changes ∧
    ((mkChange "1D" (5 : ℚ) none).change_percent.isSome ↔
      (mkChange "1D" (5 : ℚ) none).old_value.isSome) :=
  ⟨(changes_per_period_shape.1 (civil 2032 1 1) 5 [] none none).1,
   by decide,
   (changes_per_period_shape.1 (civil 2032 1 1) 5 [] none none).2
     (mkChange "1D" (5 : ℚ) none) (by decide)⟩

/-! ## Seed-direct fallback and the period horizon -/

/-- C1 counterexample: in `_usd_vnd_changes` the seed-direct fallback is not
restricted to 3Y.  With the chogia fetch failed and an initially empty store,
a run at 2023-03-27 resolves no store value for the 1D target (2023-03-26),
yet the 1D, 1W and 1M changes all carry seed-substituted old values. -/
theorem usd_vnd_short_period_seed_substitution_ce :
    get_value_at_day (seed_historical_usd_vnd []) (civil 2023 3 26) = none ∧
    (usd_vnd_changes (civil 2023 3 27) 25000 [] none).changes.map
        (fun c => (c.period, c.old_value)) =
      [("1D", some 23900), ("1W", some 23900), ("1M", some 23880),
       ("1Y", none), ("3Y", none)] := by
  exact ⟨by decide, by decide⟩

/-- C1 (amended): the wide seed-direct fallback is applied only for the 3Y
period in the gold, bitcoin and vn30 aggregations — for any other period
label, when the live-source tier and the local-store tier both fail the
resolved old value is absent.  For usd_vnd and land, however, the per-period
resolution falls through to the seed table for every period (with a 20-day
and a 45-day window respectively). -/
theorem seed_fallback_long_horizon_only :
    (∀ (w c : Option (List (ℤ × ℚ))) (store : Entries) (target : ℤ) (label : String),
      label ≠ "3Y" →
      (∀ r, w = some r → find_chogia_rate r target = none) →
      (∀ r, c = some r → find_chogia_rate r target = none) →
      get_value_at_day store target = none →
      resolve_gold_old w c store target label = none) ∧
    (∀ (ph : Option (List (ℤ × ℚ))) (store : Entries) (target : ℤ)
        (label : String) (days : ℕ),
      label ≠ "3Y" →
      (∀ r, ph = some r → find_closest_price r target = none) →
      get_value_at_day store target = none →
      resolve_bitcoin_old ph store target label days = none) ∧
    (∀ (ch : Option (List (ℤ × ℚ))) (store : Entries) (target : ℤ) (label : String),
      label ≠ "3Y" →
      (∀ r, ch = some r → find_closest_price r target = none) →
      get_value_at_day store target = none →
      resolve_vn30_old ch store target label = none) ∧
    (∀ (c : Option (List (ℤ × ℚ))) (store : Entries) (target : ℤ),
      (∀ r, c = some r → find_chogia_rate r target = none) →
      get_value_at_day store target = none →
      resolve_usd_vnd_old c store target =
        find_seed_rate USD_VND_HISTORICAL_SEEDS target 20) ∧
    (∀ (store : Entries) (target : ℤ),
      get_value_at_day store target = none →
      resolve_land_old store target =
        find_seed_rate LAND_HISTORICAL_SEEDS target 45) := by
  refine ⟨?_, ?_, ?_, ?_, ?_⟩
  · intro w c store target label hl hw hc hs
    have h1 : (match w with
        | some r => find_chogia_rate r target
        | none => none) = none := by
      rcases w with _ | r
      · rfl
      · exact hw r rfl
    have h2 : (match c with
        | some r => find_chogia_rate r target
        | none => none) = none := by
      rcases c with _ | r
      · rfl
      · exact hc r rfl
    simp [resolve_gold_old, h1, h2, hs, hl]
  · intro ph store target label days hl hp hs
    have h1 : (match ph with
        | some r =>
          if days ≤ COINGECKO_MAX_DAYS then find_closest_price r target else none
        | none => none) = none := by
      rcases ph with _ | r
      · rfl
      · simp only [hp r rfl]
        split <;> rfl
    simp [resolve_bitcoin_old, h1, hs, hl]
  · intro ch store target label hl hp hs
    have h1 : (match ch with
        | some r => find_closest_price r target
        | none => none) = none := by
      rcases ch with _ | r
      · rfl
      · exact hp r rfl
    simp [resolve_vn30_old, h1, hs, hl]
  · intro c store target hc hs
    have h1 : (match c with
        | some r => find_chogia_rate r target
        | none => none) = none := by
      rcases c with _ | r
      · rfl
      · exact hc r rfl
    simp [resolve_usd_vnd_old, h1, hs]
  · intro store target hs
    simp [resolve_land_old, hs]

/-- Witness for C1 (amended): with the VPS fetch failed and an empty store
the vn30 1D resolution is absent, while under the same failures the usd_vnd
resolution at target 2023-03-26 (seeded store, no entry within 3 days)
returns the seed-table value. -/
theorem seed_fallback_long_horizon_only_w :
    resolve_vn30_old none [] 0 "1D" = none ∧
    resolve_usd_vnd_old none (seed_historical_usd_vnd []) (civil 2023 3 26) =
      find_seed_rate USD_VND_HISTORICAL_SEEDS (civil 2023 3 26) 20 :=
  ⟨seed_fallback_long_horizon_only.2.2.1 none [] 0 "1D" (by decide)
      (fun r h => Option.noConfusion h) (by decide),
   seed_fallback_long_horizon_only.2.2.2.1 none (seed_historical_usd_vnd [])
      (civil 2023 3 26) (fun r h => Option.noConfusion h) (by decide)⟩

/-! ## Safe division and the land benchmark -/

/-- C8 counterexample: a zero numerator with a nonzero denominator does not
yield an absent result — `_safe_divide(0, 5)` is a present zero. -/
theorem safe_divide_zero_numerator_ce :
    safe_divide (some 0) (some 5) = some 0 := by
  simp [safe_divide]

/-- C8 (amended): each land-benchmark comparison is a straight division
against the fixed midpoint; the result is absent exactly when the numerator
is absent, the denominator is absent, or the denominator is zero (a zero
numerator with a nonzero denominator gives a present zero instead); and since
asset values are constructed positive, each comparison is absent exactly when
its asset operand is absent and is never zero. -/
theorem safe_divide_land_benchmark_spec :
    (∀ n d : Option ℚ, safe_divide n d = none ↔ n = none ∨ d = none ∨ d = some 0) ∧
    (∀ a b : ℚ, b ≠ 0 → safe_divide (some a) (some b) = some (a / b)) ∧
    (∀ g b u : Option ℚ,
      (∀ x, g = some x → 0 < x) →
      (∀ x, b = some x → 0 < x) →
      (∀ x, u = some x → 0 < x) →
      ((build_land_benchmark_comparisons g b u).gold_tael_per_m2 = none ↔ g = none) ∧
      ((build_land_benchmark_comparisons g b u).m2_per_gold_tael = none ↔ g = none) ∧
      ((build_land_benchmark_comparisons g b u).m2_per_btc = none ↔ b = none) ∧
      ((build_land_benchmark_comparisons g b u).m2_per_1m_usd = none ↔ u = none) ∧
      (∀ x, (build_land_benchmark_comparisons g b u).gold_tael_per_m2 = some x → 0 < x) ∧
      (∀ x, (build_land_benchmark_comparisons g b u).m2_per_gold_tael = some x → 0 < x) ∧
      (∀ x, (build_land_benchmark_comparisons g b u).m2_per_btc = some x → 0 < x) ∧
      (∀ x, (build_land_benchmark_comparisons g b u).m2_per_1m_usd = some x → 0 < x)) := by
  refine ⟨?_, ?_, ?_⟩
  · intro n d
    rcases n with _ | a <;> rcases d with _ | b <;> simp [safe_divide]
  · intro a b hb
    simp [safe_divide, hb]
  · intro g b u hg hb hu
    have hmid : (0 : ℚ) < LAND_BENCHMARK_MID_VND_PER_M2 := by
      rw [LAND_BENCHMARK_MID_VND_PER_M2]
      norm_num
    have hmid' : LAND_BENCHMARK_MID_VND_PER_M2 ≠ 0 := ne_of_gt hmid
    refine ⟨?_, ?_, ?_, ?_, ?_, ?_, ?_, ?_⟩
    · rcases g with _ | x
      · simp [build_land_benchmark_comparisons, safe_divide]
      · have hx := hg x rfl
        simp [build_land_benchmark_comparisons, safe_divide, ne_of_gt hx]
    · rcases g with _ | x
      · simp [build_land_benchmark_comparisons, safe_divide]
      · simp [build_land_benchmark_comparisons, safe_divide, hmid']
    · rcases b with _ | x
      · simp [build_land_benchmark_comparisons, safe_divide]
      · simp [build_land_benchmark_comparisons, safe_divide, hmid']
    · rcases u with _ | x
      · simp [build_land_benchmark_comparisons, safe_divide]
      · simp [build_land_benchmark_comparisons, safe_divide, hmid']
    · rcases g with _ | x
      · simp [build_land_benchmark_comparisons, safe_divide]
      · have hx := hg x rfl
        simp only [build_land_benchmark_comparisons, safe_divide, if_neg (ne_of_gt hx)]
        rintro y hy
        cases hy
        exact div_pos hmid hx
    · rcases g with _ | x
      · simp [build_land_benchmark_comparisons, safe_divide]
      · have hx := hg x rfl
        simp only [build_land_benchmark_comparisons, safe_divide, if_neg hmid']
        rintro y hy
        cases hy
        exact div_pos hx hmid
    · rcases b with _ | x
      · simp [build_land_benchmark_comparisons, safe_divide]
      · have hx := hb x rfl
        simp only [build_land_benchmark_comparisons, safe_divide, if_neg hmid']
        rintro y hy
        cases hy
        exact div_pos hx hmid
    · rcases u with _ | x
      · simp [build_land_benchmark_comparisons, safe_divide]
      · have hx := hu x rfl
        simp only [build_land_benchmark_comparisons, Option.map_some', safe_divide,
          if_neg hmid']
        rintro y hy
        cases hy
        exact div_pos (by positivity) hmid

/-- Witness for C8 (amended): a zero denominator is absent, and at concrete
positive current values the bitcoin comparison is absent exactly because the
bitcoin block is absent. -/
theorem safe_divide_land_benchmark_spec_w :
    safe_divide (some (180000000 : ℚ)) (some 0) = none ∧
    ((build_land_benchmark_comparisons (some 180000000) none
        (some 25000)).m2_per_btc = none ↔ (none : Option ℚ) = none) :=
  ⟨(safe_divide_land_benchmark_spec.1 (some (180000000 : ℚ)) (some 0)).mpr
      (Or.inr (Or.inr rfl)),
   (safe_divide_land_benchmark_spec.2.2 (some 180000000) none (some 25000)
      (by rintro x hx; cases hx; decide)
      (fun x hx => Option.noConfusion hx)
      (by rintro x hx; cases hx; decide)).2.2.1⟩

/-! ## Last-known-good restoration -/

theorem lookupKey_upsertKey_self {α : Type} (l : List (String × α)) (k : String) (v : α) :
    lookupKey (upsertKey l k v) k = some v := by
  induction l with
  | nil => simp [upsertKey, lookupKey]
  | cons e rest ih =>
    by_cases h : e.1 = k
    · simp [upsertKey, lookupKey, h]
    · simp [upsertKey, lookupKey, h, ih]

theorem lookupKey_upsertKey_ne {α : Type} (l : List (String × α)) (k k' : String) (v : α)
    (h : k ≠ k') : lookupKey (upsertKey l k v) k' = lookupKey l k' := by
  induction l with
  | nil => simp [upsertKey, lookupKey, h]
  | cons e rest ih =>
    by_cases he : e.1 = k
    · simp [upsertKey, lookupKey, he, h, ih]
    · simp [upsertKey, lookupKey, he, h, ih]

theorem restoreStep_skip (prev : Payload) (p : Payload) (acc : List String) (a : String)
    (h : lookupKey prev.current a = none) : restoreStep prev (p, acc) a = (p, acc) := by
  simp [restoreStep, h]

theorem restoreStep_hit (prev : Payload) (p : Payload) (acc : List String) (a : String)
    (blk : AssetBlock) (h : lookupKey prev.current a = some blk) :
    (restoreStep prev (p, acc) a).1.current = upsertKey p.current a blk ∧
    (restoreStep prev (p, acc) a).1.history =
      (match lookupKey prev.history a with
        | some hh => upsertKey p.history a hh
        | none => p.history) ∧
    (restoreStep prev (p, acc) a).1.timeseries =
      (match lookupKey prev.timeseries a with
        | some tt => upsertKey p.timeseries a tt
        | none => p.timeseries) ∧
    (restoreStep prev (p, acc) a).2 = acc ++ [a] := by
  rcases hh : lookupKey prev.history a with _ | hv <;>
    rcases ht : lookupKey prev.timeseries a with _ | tv <;>
    simp [restoreStep, h, hh, ht]

theorem restore_go (prev : Payload) (ds : List String) :
    ∀ (p : Payload) (acc : List String),
      (ds.foldl (restoreStep prev) (p, acc)).2 =
        acc ++ ds.filter (fun a => (lookupKey prev.current a).isSome) ∧
      (∀ a, lookupKey (ds.foldl (restoreStep prev) (p, acc)).1.current a =
        if a ∈ ds ∧ (lookupKey prev.current a).isSome
        then lookupKey prev.current a else lookupKey p.current a) ∧
      (∀ a, lookupKey (ds.foldl (restoreStep prev) (p, acc)).1.history a =
        if a ∈ ds ∧ (lookupKey prev.current a).isSome ∧ (lookupKey prev.history a).isSome
        then lookupKey prev.history a else lookupKey p.history a) ∧
      (∀ a, lookupKey (ds.foldl (restoreStep prev) (p, acc)).1.timeseries a =
        if a ∈ ds ∧ (lookupKey prev.current a).isSome ∧
            (lookupKey prev.timeseries a).isSome
        then lookupKey prev.timeseries a else lookupKey p.timeseries a) := by
  induction ds with
  | nil =>
    intro p acc
    refine ⟨by simp, fun a => ?_, fun a => ?_, fun a => ?_⟩ <;> simp
  | cons d rest ih =>
    intro p acc
    rw [List.foldl_cons]
    rcases hd : lookupKey prev.current d with _ | blk
    · -- d absent from the previous payload: skipped
      rw [restoreStep_skip prev p acc d hd]
      rcases ih p acc with ⟨ih2, ihc, ihh, iht⟩
      refine ⟨?_, fun a => ?_, fun a => ?_, fun a => ?_⟩
      · rw [ih2, List.filter_cons]
        simp [hd]
      · rw [ihc a]
        by_cases ha : a = d
        · subst ha
          simp [hd]
        · simp [List.mem_cons, ha]
      · rw [ihh a]
        by_cases ha : a = d
        · subst ha
          simp [hd]
        · simp [List.mem_cons, ha]
      · rw [iht a]
        by_cases ha : a = d
        · subst ha
          simp [hd]
        · simp [List.mem_cons, ha]
    · -- d present in the previous payload: its blocks are overwritten
      rcases restoreStep_hit prev p acc d blk hd with ⟨hc, hh, ht, hs⟩
      rcases hstep : restoreStep prev (p, acc) d with ⟨p₃, acc₃⟩
      rw [hstep] at hc hh ht hs
      dsimp only at hc hh ht hs
      rcases ih p₃ acc₃ with ⟨ih2, ihc, ihh, iht⟩
      refine ⟨?_, fun a => ?_, fun a => ?_, fun a => ?_⟩
      · rw [ih2, hs, List.filter_cons]
        simp [hd]
      · rw [ihc a, hc]
        by_cases ha : a = d
        · subst ha
          by_cases hmem : a ∈ rest ∧ (lookupKey prev.current a).isSome
          · rw [if_pos hmem, if_pos ⟨List.mem_cons_self _ _, hmem.2⟩]
          · rw [if_neg hmem, if_pos ⟨List.mem_cons_self _ _, by simp [hd]⟩,
              lookupKey_upsertKey_self, hd]
        · rw [lookupKey_upsertKey_ne p.current d a blk (fun hh' => ha hh'.symm)]
          by_cases hmem : a ∈ rest ∧ (lookupKey prev.current a).isSome
          · rw [if_pos hmem, if_pos ⟨List.mem_cons_of_mem _ hmem.1, hmem.2⟩]
          · rw [if_neg hmem, if_neg ?_]
            rintro ⟨hmem', hsome⟩
            rcases List.mem_cons.mp hmem' with rfl | hmem'
            · exact ha rfl
            · exact hmem ⟨hmem', hsome⟩
      · rw [ihh a, hh]
        by_cases ha : a = d
        · subst ha
          rcases hph : lookupKey prev.history a with _ | hv
          · simp
          · by_cases hmem : a ∈ rest <;>
              simp [hd, hmem, lookupKey_upsertKey_self]
        · have hne : ∀ hh' : List ChangeRow, lookupKey
              (match lookupKey prev.history d with
                | some hh => upsertKey p.history d hh
                | none => p.history) a = lookupKey p.history a := by
            intro _
            rcases lookupKey prev.history d with _ | hv
            · rfl
            · exact lookupKey_upsertKey_ne p.history d a hv (fun hh' => ha hh'.symm)
          rw [hne []]
          by_cases hmem : a ∈ rest ∧ (lookupKey prev.current a).isSome ∧
              (lookupKey prev.history a).isSome
          · rw [if_pos hmem, if_pos ⟨List.mem_cons_of_mem _ hmem.1, hmem.2⟩]
          · rw [if_neg hmem, if_neg ?_]
            rintro ⟨hmem', hsome⟩
            rcases List.mem_cons.mp hmem' with rfl | hmem'
            · exact ha rfl
            · exact hmem ⟨hmem', hsome⟩
      · rw [iht a, ht]
        by_cases ha : a = d
        · subst ha
          rcases hph : lookupKey prev.timeseries a with _ | tv
          · simp
          · by_cases hmem : a ∈ rest <;>
              simp [hd, hmem, lookupKey_upsertKey_self]
        · have hne : lookupKey
              (match lookupKey prev.timeseries d with
                | some tt => upsertKey p.timeseries d tt
                | none => p.timeseries) a = lookupKey p.timeseries a := by
            rcases lookupKey prev.timeseries d with _ | tv
            · rfl
            · exact lookupKey_upsertKey_ne p.timeseries d a tv (fun hh' => ha hh'.symm)
          rw [hne]
          by_cases hmem : a ∈ rest ∧ (lookupKey prev.current a).isSome ∧
              (lookupKey prev.timeseries a).isSome
          · rw [if_pos hmem, if_pos ⟨List.mem_cons_of_mem _ hmem.1, hmem.2⟩]
          · rw [if_neg hmem, if_neg ?_]
            rintro ⟨hmem', hsome⟩
            rcases List.mem_cons.mp hmem' with rfl | hmem'
            · exact ha rfl
            · exact hmem ⟨hmem', hsome⟩

/-- C7: `_restore_degraded_assets_from_lkg` returns exactly the degraded
assets present in the previous payload; for each such asset the current
block is overwritten from the previous payload, and the `history` and
`timeseries` blocks are overwritten whenever the previous payload has them;
assets absent from the previous payload, and assets not in the degraded
list, are left untouched (nothing is fabricated). -/
theorem restore_degraded_assets_spec (p prev : Payload) (degraded_assets : List String) :
    (restore_degraded_assets_from_lkg p prev degraded_assets).2 =
      degraded_assets.filter (fun a => (lookupKey prev.current a).isSome) ∧
    (∀ a, lookupKey (restore_degraded_assets_from_lkg p prev degraded_assets).1.current a =
      if a ∈ degraded_assets ∧ (lookupKey prev.current a).isSome
      then lookupKey prev.current a else lookupKey p.current a) ∧
    (∀ a, lookupKey (restore_degraded_assets_from_lkg p prev degraded_assets).1.history a =
      if a ∈ degraded_assets ∧ (lookupKey prev.current a).isSome ∧
          (lookupKey prev.history a).isSome
      then lookupKey prev.history a else lookupKey p.history a) ∧
    (∀ a, lookupKey (restore_degraded_assets_from_lkg p prev degraded_assets).1.timeseries a =
      if a ∈ degraded_assets ∧ (lookupKey prev.current a).isSome ∧
          (lookupKey prev.timeseries a).isSome
      then lookupKey prev.timeseries a else lookupKey p.timeseries a) := by
  have h := restore_go prev degraded_assets p []
  rcases h with ⟨h2, hc, hh, ht⟩
  exact ⟨by rw [show restore_degraded_assets_from_lkg p prev degraded_assets =
      degraded_assets.foldl (restoreStep prev) (p, []) from rfl, h2, List.nil_append],
    fun a => by rw [show restore_degraded_assets_from_lkg p prev degraded_assets =
      degraded_assets.foldl (restoreStep prev) (p, []) from rfl]; exact hc a,
    fun a => by rw [show restore_degraded_assets_from_lkg p prev degraded_assets =
      degraded_assets.foldl (restoreStep prev) (p, []) from rfl]; exact hh a,
    fun a => by rw [show restore_degraded_assets_from_lkg p prev degraded_assets =
      degraded_assets.foldl (restoreStep prev) (p, []) from rfl]; exact ht a⟩

/-! ## Health assessment -/

theorem isPrefixOf_map_toLower :
    ∀ (l s : List Char), l.isPrefixOf s = true →
      (l.map Char.toLower).isPrefixOf (s.map Char.toLower) = true
  | [], s, _ => by simp [List.isPrefixOf]
  | a :: l, [], h => by simp [List.isPrefixOf] at h
  | a :: l, b :: s, h => by
    simp only [List.isPrefixOf, Bool.and_eq_true, beq_iff_eq, List.map_cons] at h ⊢
    exact ⟨by rw [h.1], isPrefixOf_map_toLower l s h.2⟩

theorem assetReasons_snd (p : Payload) (a : String) :
    (assetReasons p a).2 = (assetBaseReasons p a).2 := by
  unfold assetReasons
  rcases lookupKey p.history a with _ | rows
  · rfl
  · simp only []
    split <;> rfl

theorem assetReasons_base_mem (p : Payload) (a : String) (r : Reason)
    (h : r ∈ (assetBaseReasons p a).1) : r ∈ (assetReasons p a).1 := by
  unfold assetReasons
  rcases lookupKey p.history a with _ | rows
  · exact h
  · simp only []
    split
    · exact h
    · exact List.mem_append_left _ h

theorem assetBaseReasons_snd_iff (p : Payload) (a : String) :
    (assetBaseReasons p a).2 = true ↔
      lookupKey p.current a = none ∨
      (a = "usd_vnd" ∧ ∃ blk, lookupKey p.current a = some blk ∧ blk.sell_rate = none) := by
  unfold assetBaseReasons
  rcases hcur : lookupKey p.current a with _ | blk
  · simp
  · simp only [Option.some.injEq]
    by_cases husd : a = "usd_vnd" ∧ blk.sell_rate = none
    · rw [if_pos husd]
      simp only [true_iff]
      exact Or.inr ⟨husd.1, blk, rfl, husd.2⟩
    · rw [if_neg husd]
      constructor
      · intro hh
        exfalso
        revert hh
        split
        · simp
        · simp
      · rintro (h | ⟨h1, blk', hblk', h2⟩)
        · exact absurd h (by simp)
        · refine absurd ⟨h1, ?_⟩ husd
          rw [hblk']
          exact h2

theorem lookupKey_map_of_mem {α : Type} (l : List String) (g : String → α) (k : String)
    (h : k ∈ l) : lookupKey (l.map fun a => (a, g a)) k = some (g k) := by
  induction l with
  | nil => simp at h
  | cons a rest ih =>
    by_cases ha : a = k
    · subst ha
      simp [lookupKey]
    · rcases List.mem_cons.mp h with rfl | h'
      · exact absurd rfl ha
      · simp only [List.map_cons, lookupKey, if_neg ha]
        exact ih h'

theorem assess_assets_eq (p : Payload) :
    (assess_payload_health p).assets = REQUIRED_ASSETS.map fun a =>
      (a, { status := if (assetReasons p a).1.isEmpty then "ok" else "degraded"
            reasons := (assetReasons p a).1
            source := (lookupKey p.current a).bind AssetBlock.source : AssetHealth }) := by
  simp only [assess_payload_health, List.map_map]
  rfl

theorem lookupKey_assess_assets (p : Payload) (a : String) (h : a ∈ REQUIRED_ASSETS) :
    lookupKey (assess_payload_health p).assets a =
      some { status := if (assetReasons p a).1.isEmpty then "ok" else "degraded"
             reasons := (assetReasons p a).1
             source := (lookupKey p.current a).bind AssetBlock.source } := by
  rw [assess_assets_eq]
  exact lookupKey_map_of_mem REQUIRED_ASSETS _ a h

theorem mem_degraded_assets (p : Payload) (a : String) :
    a ∈ (assess_payload_health p).degraded_assets ↔
      a ∈ REQUIRED_ASSETS ∧ (assetReasons p a).1 ≠ [] := by
  simp only [assess_payload_health, List.mem_map, List.mem_filter]
  constructor
  · rintro ⟨x, ⟨⟨b, hb, rfl⟩, hne⟩, rfl⟩
    simp only [Bool.not_eq_true', ← Bool.ne_false_iff] at hne
    exact ⟨hb, by simpa [List.isEmpty_iff] using hne⟩
  · rintro ⟨ha, hne⟩
    exact ⟨(a, assetReasons p a), ⟨⟨a, ha, rfl⟩, by simpa [List.isEmpty_iff] using hne⟩, rfl⟩

/-- C6: the health assessment examines exactly the required assets (gold,
usd_vnd, bitcoin, vn30 — land excluded); `severe_degradation` is set exactly
when a required current block is missing or the usd_vnd block lacks its
sell_rate (so a fallback-sourced vn30 alone is never severe); a vn30 source
starting with "Fallback" yields a fallback-source reason and a degraded
vn30; a vn30 timeseries with fewer than 2 points yields a short-timeseries
reason; an asset is ok iff it has no reasons and degraded iff it has some;
and the overall status is degraded iff some required asset is degraded. -/
theorem assess_payload_health_spec (p : Payload) :
    ((assess_payload_health p).assets.map Prod.fst = REQUIRED_ASSETS) ∧
    ((assess_payload_health p).severe_degradation = true ↔
      ∃ a ∈ REQUIRED_ASSETS, lookupKey p.current a = none ∨
        (a = "usd_vnd" ∧ ∃ blk, lookupKey p.current a = some blk ∧
          blk.sell_rate = none)) ∧
    (∀ blk src, lookupKey p.current "vn30" = some blk → blk.source = some src →
      ("Fallback".toList).isPrefixOf src = true →
      ∃ ah, lookupKey (assess_payload_health p).assets "vn30" = some ah ∧
        Reason.hardcoded_fallback_source ∈ ah.reasons ∧ ah.status = "degraded" ∧
        "vn30" ∈ (assess_payload_health p).degraded_assets) ∧
    (∀ blk, lookupKey p.current "vn30" = some blk →
      ((lookupKey p.timeseries "vn30").getD []).length < 2 →
      ∃ ah, lookupKey (assess_payload_health p).assets "vn30" = some ah ∧
        Reason.short_timeseries ∈ ah.reasons ∧ ah.status = "degraded") ∧
    (∀ a ∈ REQUIRED_ASSETS,
      ∃ ah, lookupKey (assess_payload_health p).assets a = some ah ∧
        (ah.status = "ok" ↔ ah.reasons = []) ∧
        (ah.status = "degraded" ↔ ah.reasons ≠ [])) ∧
    ((assess_payload_health p).overall = "degraded" ↔
      (assess_payload_health p).degraded_assets ≠ []) ∧
    (∀ a, a ∈ (assess_payload_health p).degraded_assets ↔
      a ∈ REQUIRED_ASSETS ∧ (assetReasons p a).1 ≠ []) := by
  have hbase_vn30 : ∀ blk, lookupKey p.current "vn30" = some blk →
      assetBaseReasons p "vn30" =
        ((if ("fallback".toList).isPrefixOf
            ((blk.source.getD []).map Char.toLower) = true then
          [Reason.hardcoded_fallback_source] else []) ++
          (if ((lookupKey p.timeseries "vn30").getD []).length < 2 then
            [Reason.short_timeseries] else []), false) := by
    intro blk hcur
    unfold assetBaseReasons
    rw [hcur]
    simp only [Option.some.injEq]
    rw [if_neg (by rintro ⟨h1, _⟩; exact absurd h1 (by decide))]
    rw [if_pos (by trivial)]
    split <;> simp_all
  refine ⟨?_, ?_, ?_, ?_, ?_, ?_, mem_degraded_assets p⟩
  · rw [assess_assets_eq, List.map_map]
    exact List.map_id'' (fun _ => rfl) REQUIRED_ASSETS
  · simp only [assess_payload_health, List.any_eq_true, List.mem_map]
    constructor
    · rintro ⟨x, ⟨b, hb, rfl⟩, hsev⟩
      refine ⟨b, hb, ?_⟩
      rw [assetReasons_snd, assetBaseReasons_snd_iff] at hsev
      exact hsev
    · rintro ⟨b, hb, hcond⟩
      exact ⟨(b, assetReasons p b), ⟨b, hb, rfl⟩, by
        rw [assetReasons_snd, assetBaseReasons_snd_iff]
        exact hcond⟩
  · intro blk src hcur hsrc hpre
    have hmem : Reason.hardcoded_fallback_source ∈ (assetReasons p "vn30").1 := by
      apply assetReasons_base_mem
      rw [hbase_vn30 blk hcur]
      have hlow : ("fallback".toList).isPrefixOf
          ((blk.source.getD []).map Char.toLower) = true := by
        rw [hsrc]
        have := isPrefixOf_map_toLower "Fallback".toList src hpre
        rwa [show "Fallback".toList.map Char.toLower = "fallback".toList from by decide]
          at this
      rw [if_pos hlow]
      exact List.mem_append_left _ (List.mem_cons_self _ _)
    have hne : (assetReasons p "vn30").1 ≠ [] := by
      intro hnil
      rw [hnil] at hmem
      simp at hmem
    refine ⟨_, lookupKey_assess_assets p "vn30" (by decide), hmem, ?_, ?_⟩
    · simp only [List.isEmpty_iff, if_neg hne]
    · exact (mem_degraded_assets p "vn30").mpr ⟨by decide, hne⟩
  · intro blk hcur hlen
    have hmem : Reason.short_timeseries ∈ (assetReasons p "vn30").1 := by
      apply assetReasons_base_mem
      rw [hbase_vn30 blk hcur, if_pos hlen]
      exact List.mem_append_right _ (List.mem_cons_self _ _)
    have hne : (assetReasons p "vn30").1 ≠ [] := by
      intro hnil
      rw [hnil] at hmem
      simp at hmem
    refine ⟨_, lookupKey_assess_assets p "vn30" (by decide), hmem, ?_⟩
    simp only [List.isEmpty_iff, if_neg hne]
  · intro a ha
    refine ⟨_, lookupKey_assess_assets p a ha, ?_, ?_⟩
    · by_cases hne : (assetReasons p a).1 = []
      · simp [List.isEmpty_iff, hne]
      · simp only [List.isEmpty_iff, if_neg hne]
        exact ⟨fun hh => absurd hh (by decide), fun hh => absurd hh hne⟩
    · by_cases hne : (assetReasons p a).1 = []
      · simp only [List.isEmpty_iff, if_pos hne]
        exact ⟨fun hh => absurd hh (by decide), fun hh => absurd hne hh⟩
      · simp [List.isEmpty_iff, hne]
  · simp only [assess_payload_health]
    by_cases hne : ((REQUIRED_ASSETS.map fun a => (a, assetReasons p a)).filter
        (fun x => !x.2.1.isEmpty)).map Prod.fst = []
    · simp only [hne, List.isEmpty_nil, if_pos]
      exact ⟨fun hh => absurd hh (by decide), fun hh => absurd rfl hh⟩
    · rw [if_neg (by simpa [List.isEmpty_iff] using hne)]
      simp [hne]

/-- Witness for C6: on `samplePayload` the assessment flags vn30 as degraded
with the fallback-source reason. -/
theorem assess_payload_health_spec_w :
    ∃ ah, lookupKey (assess_payload_health samplePayload).assets "vn30" = some ah ∧
      Reason.hardcoded_fallback_source ∈ ah.reasons ∧ ah.status = "degraded" ∧
      "vn30" ∈ (assess_payload_health samplePayload).degraded_assets :=
  (assess_payload_health_spec samplePayload).2.2.1
    { source := some "Fallback (Scraping Failed)".toList, sell_rate := none }
    ("Fallback (Scraping Failed)".toList) (by decide) (by decide) (by decide)

/-! ## Merging current values into the chart timeseries -/

theorem upsertTodayPoint_perm (pts : List (ℤ × ℚ)) (today : ℤ) (v : ℚ) :
    (upsertTodayPoint pts today v).Perm (upsertDay pts today v) :=
  List.mergeSort_perm (upsertDay pts today v) _

theorem upsertTodayPoint_sorted (pts : List (ℤ × ℚ)) (today : ℤ) (v : ℚ) :
    (upsertTodayPoint pts today v).Pairwise (fun p q : ℤ × ℚ => p.1 ≤ q.1) := by
  have h := @List.sorted_mergeSort (ℤ × ℚ)
    (fun a b : ℤ × ℚ => decide (a.1 ≤ b.1))
    (fun a b c hab hbc => by
      simp only [decide_eq_true_eq] at hab hbc ⊢
      exact le_trans hab hbc)
    (fun a b => by
      simp only [Bool.or_eq_true, decide_eq_true_eq]
      exact le_total a.1 b.1)
    (upsertDay pts today v)
  exact h.imp (by simp)

theorem mem_upsertDay {e : ℤ × ℚ} {pts : List (ℤ × ℚ)} {d : ℤ} {v : ℚ}
    (h : e ∈ upsertDay pts d v) : e ∈ pts ∨ e = (d, v) := by
  induction pts with
  | nil => simpa [upsertDay] using h
  | cons a rest ih =>
    by_cases ha : a.1 = d
    · rw [upsertDay, if_pos ha] at h
      rcases List.mem_cons.mp h with rfl | h
      · exact Or.inr (by rw [← ha])
      · exact Or.inl (List.mem_cons_of_mem _ h)
    · rw [upsertDay, if_neg ha] at h
      rcases List.mem_cons.mp h with rfl | h
      · exact Or.inl (List.mem_cons_self _ _)
      · rcases ih h with h' | h'
        · exact Or.inl (List.mem_cons_of_mem _ h')
        · exact Or.inr h'

theorem upsertDay_self_mem (pts : List (ℤ × ℚ)) (d : ℤ) (v : ℚ) :
    (d, v) ∈ upsertDay pts d v := by
  induction pts with
  | nil => simp [upsertDay]
  | cons a rest ih =>
    by_cases ha : a.1 = d
    · rw [upsertDay, if_pos ha, ha]
      exact List.mem_cons_self _ _
    · rw [upsertDay, if_neg ha]
      exact List.mem_cons_of_mem _ ih

theorem upsertDay_today_unique {pts : List (ℤ × ℚ)} {d : ℤ} {v : ℚ}
    (hcount : pts.countP (fun pt => decide (pt.1 = d)) ≤ 1) :
    ∀ e ∈ upsertDay pts d v, e.1 = d → e = (d, v) := by
  induction pts with
  | nil =>
    intro e he hd
    simp only [upsertDay, List.mem_singleton] at he
    exact he
  | cons a rest ih =>
    intro e he hd
    by_cases ha : a.1 = d
    · rw [upsertDay, if_pos ha] at he
      rw [List.countP_cons, if_pos (by simpa using ha)] at hcount
      have hrest : rest.countP (fun pt => decide (pt.1 = d)) = 0 := by omega
      rcases List.mem_cons.mp he with rfl | he
      · rw [← ha]
      · exact absurd (by simpa using hd)
          ((List.countP_eq_zero.mp hrest) e he)
    · rw [upsertDay, if_neg ha] at he
      rw [List.countP_cons, if_neg (by simpa using ha), Nat.add_zero] at hcount
      rcases List.mem_cons.mp he with rfl | he
      · exact absurd hd ha
      · exact ih hcount e he hd

theorem getLast?_eq_of_sorted_max {l : List (ℤ × ℚ)} {m : ℤ × ℚ}
    (hs : l.Pairwise (fun p q : ℤ × ℚ => p.1 ≤ q.1)) (hm : m ∈ l)
    (hmax : ∀ e ∈ l, e.1 ≤ m.1) (huniq : ∀ e ∈ l, e.1 = m.1 → e = m) :
    l.getLast? = some m := by
  induction l with
  | nil => simp at hm
  | cons a rest ih =>
    rcases rest with _ | ⟨b, rest'⟩
    · rw [List.getLast?_singleton]
      rcases List.mem_cons.mp hm with rfl | hm'
      · rfl
      · simp at hm'
    · rw [List.getLast?_cons_cons]
      have hmem : m ∈ b :: rest' := by
        rcases List.mem_cons.mp hm with rfl | hm'
        · -- the head is the unique maximum, so the element after it equals it
          have hb : b ∈ b :: rest' := List.mem_cons_self _ _
          have h1 : m.1 ≤ b.1 := (List.pairwise_cons.mp hs).1 b hb
          have h2 : b.1 ≤ m.1 := hmax b (List.mem_cons_of_mem _ hb)
          have hbm : b = m := huniq b (List.mem_cons_of_mem _ hb) (le_antisymm h2 h1)
          rw [← hbm]
          exact hb
        · exact hm'
      exact ih (List.Pairwise.of_cons hs) hmem
        (fun e he => hmax e (List.mem_cons_of_mem _ he))
        (fun e he => huniq e (List.mem_cons_of_mem _ he))

theorem lookupKey_mem {α : Type} {l : List (String × α)} {k : String} {x : α}
    (h : lookupKey l k = some x) : (k, x) ∈ l := by
  induction l with
  | nil => simp [lookupKey] at h
  | cons e rest ih =>
    by_cases he : e.1 = k
    · simp only [lookupKey, if_pos he, Option.some.injEq] at h
      have : e = (k, x) := by cases e; simp_all
      rw [← this]
      exact List.mem_cons_self _ _
    · simp only [lookupKey, if_neg he] at h
      exact List.mem_cons_of_mem _ (ih h)

theorem mem_upsertKey {α : Type} {e : String × α} {l : List (String × α)} {k : String}
    {v : α} (h : e ∈ upsertKey l k v) : e ∈ l ∨ e = (k, v) := by
  induction l with
  | nil => simpa [upsertKey] using h
  | cons a rest ih =>
    by_cases ha : a.1 = k
    · rw [upsertKey, if_pos ha] at h
      rcases List.mem_cons.mp h with rfl | h
      · exact Or.inr (by rw [← ha])
      · exact Or.inl (List.mem_cons_of_mem _ h)
    · rw [upsertKey, if_neg ha] at h
      rcases List.mem_cons.mp h with rfl | h
      · exact Or.inl (List.mem_cons_self _ _)
      · rcases ih h with h' | h'
        · exact Or.inl (List.mem_cons_of_mem _ h')
        · exact Or.inr h'

theorem lookupKey_map_filter (ts : List (String × List (ℤ × ℚ))) (k : String) (today : ℤ) :
    lookupKey (ts.map fun ap => (ap.1, ap.2.filter fun pt => decide (pt.1 ≤ today))) k =
      (lookupKey ts k).map fun pts => pts.filter fun pt => decide (pt.1 ≤ today) := by
  induction ts with
  | nil => rfl
  | cons a rest ih =>
    by_cases ha : a.1 = k
    · simp [lookupKey, ha]
    · simp [lookupKey, ha, ih]

theorem upsertAssetSeries_lookup_some (m : List (String × List (ℤ × ℚ))) (key : String)
    (x : ℚ) (today : ℤ) :
    lookupKey (upsertAssetSeries m key (some x) today) key =
      some (upsertTodayPoint ((lookupKey m key).getD []) today x) := by
  simp [upsertAssetSeries, lookupKey_upsertKey_self]

theorem upsertAssetSeries_lookup_other (m : List (String × List (ℤ × ℚ))) (key : String)
    (v : Option ℚ) (today : ℤ) (k : String) (h : key ≠ k) :
    lookupKey (upsertAssetSeries m key v today) k = lookupKey m k := by
  rcases v with _ | x
  · rfl
  · exact lookupKey_upsertKey_ne m key k _ h

theorem getD_map_filter (o : Option (List (ℤ × ℚ))) (today : ℤ) :
    ((o.map fun pts => pts.filter fun pt => decide (pt.1 ≤ today)).getD []) =
      (o.getD []).filter fun pt => decide (pt.1 ≤ today) := by
  rcases o with _ | pts <;> rfl

theorem upsertAssetSeries_all_le (m : List (String × List (ℤ × ℚ))) (key : String)
    (v : Option ℚ) (today : ℤ)
    (h : ∀ ap ∈ m, ∀ pt ∈ ap.2, pt.1 ≤ today) :
    ∀ ap ∈ upsertAssetSeries m key v today, ∀ pt ∈ ap.2, pt.1 ≤ today := by
  rcases v with _ | x
  · exact h
  · intro ap hap pt hpt
    rcases mem_upsertKey hap with hap' | rfl
    · exact h ap hap' pt hpt
    · have hpt' := (upsertTodayPoint_perm _ today x).mem_iff.mp hpt
      rcases mem_upsertDay hpt' with hpt'' | rfl
      · rcases hlk : lookupKey m key with _ | pts₀
        · rw [hlk] at hpt''
          simp at hpt''
        · rw [hlk] at hpt''
          exact h (key, pts₀) (lookupKey_mem hlk) pt hpt''
      · exact le_refl today

/-- C5 counterexample: the series of an asset without a current value is only
filtered, not re-sorted — an unsorted input series survives unsorted. -/
theorem merge_unsorted_series_ce :
    merge_current_into_timeseries [("land", [((5 : ℤ), (1 : ℚ)), (2, 2)])]
        none none none none 6 =
      [("land", [((5 : ℤ), (1 : ℚ)), (2, 2)])] ∧
    ¬ List.Pairwise (fun p q : ℤ × ℚ => p.1 ≤ q.1) [((5 : ℤ), (1 : ℚ)), (2, 2)] :=
  ⟨by decide, by decide⟩

/-- C5 (amended): `merge_current_into_timeseries` drops every point dated
strictly after today from every series; for each of the four assets with a
current value the today point is replaced-or-appended and that series is
re-sorted ascending, so (provided the asset's input series has at most one
point dated today) its last point is exactly `[today, current_value]`; the
series of assets without a current value, and of keys other than the four
upserted assets, are only filtered, keeping their original order. -/
theorem merge_current_into_timeseries_spec
    (ts : List (String × List (ℤ × ℚ))) (g u b v : Option ℚ) (today : ℤ) :
    (∀ ap ∈ merge_current_into_timeseries ts g u b v today, ∀ pt ∈ ap.2, pt.1 ≤ today) ∧
    (∀ x : ℚ, g = some x →
      ∃ pts, lookupKey (merge_current_into_timeseries ts g u b v today) "gold" = some pts ∧
        pts.Pairwise (fun p q : ℤ × ℚ => p.1 ≤ q.1) ∧
        (((lookupKey ts "gold").getD []).countP (fun pt => decide (pt.1 = today)) ≤ 1 →
          pts.getLast? = some (today, x))) ∧
    (∀ x : ℚ, u = some x →
      ∃ pts, lookupKey (merge_current_into_timeseries ts g u b v today) "usd_vnd" = some pts ∧
        pts.Pairwise (fun p q : ℤ × ℚ => p.1 ≤ q.1) ∧
        (((lookupKey ts "usd_vnd").getD []).countP (fun pt => decide (pt.1 = today)) ≤ 1 →
          pts.getLast? = some (today, x))) ∧
    (∀ x : ℚ, b = some x →
      ∃ pts, lookupKey (merge_current_into_timeseries ts g u b v today) "bitcoin" = some pts ∧
        pts.Pairwise (fun p q : ℤ × ℚ => p.1 ≤ q.1) ∧
        (((lookupKey ts "bitcoin").getD []).countP (fun pt => decide (pt.1 = today)) ≤ 1 →
          pts.getLast? = some (today, x))) ∧
    (∀ x : ℚ, v = some x →
      ∃ pts, lookupKey (merge_current_into_timeseries ts g u b v today) "vn30" = some pts ∧
        pts.Pairwise (fun p q : ℤ × ℚ => p.1 ≤ q.1) ∧
        (((lookupKey ts "vn30").getD []).countP (fun pt => decide (pt.1 = today)) ≤ 1 →
          pts.getLast? = some (today, x))) ∧
    (∀ key : String, key ∉ (["gold", "usd_vnd", "bitcoin", "vn30"] : List String) →
      lookupKey (merge_current_into_timeseries ts g u b v today) key =
        (lookupKey ts key).map fun pts => pts.filter fun pt => decide (pt.1 ≤ today)) := by
  have hdef : merge_current_into_timeseries ts g u b v today =
      upsertAssetSeries (upsertAssetSeries (upsertAssetSeries (upsertAssetSeries
        (ts.map fun ap => (ap.1, ap.2.filter fun pt => decide (pt.1 ≤ today)))
        "gold" g today) "usd_vnd" u today) "bitcoin" b today) "vn30" v today := rfl
  have hmerged_le : ∀ ap ∈ (ts.map fun ap =>
      (ap.1, ap.2.filter fun pt => decide (pt.1 ≤ today))), ∀ pt ∈ ap.2, pt.1 ≤ today := by
    rintro ap hap pt hpt
    rcases List.mem_map.mp hap with ⟨orig, _, rfl⟩
    simpa using List.of_mem_filter hpt
  -- the per-asset result of one upsert, with the three properties
  have key_spec : ∀ (m : List (String × List (ℤ × ℚ))) (key : String) (x : ℚ)
      (hm : lookupKey m key = (lookupKey ts key).map
        fun pts => pts.filter fun pt => decide (pt.1 ≤ today)),
      lookupKey (upsertAssetSeries m key (some x) today) key =
        some (upsertTodayPoint
          (((lookupKey ts key).getD []).filter fun pt => decide (pt.1 ≤ today)) today x) ∧
      (upsertTodayPoint
          (((lookupKey ts key).getD []).filter fun pt => decide (pt.1 ≤ today)) today x
        ).Pairwise (fun p q : ℤ × ℚ => p.1 ≤ q.1) ∧
      (((lookupKey ts key).getD []).countP (fun pt => decide (pt.1 = today)) ≤ 1 →
        (upsertTodayPoint
          (((lookupKey ts key).getD []).filter fun pt => decide (pt.1 ≤ today)) today x
          ).getLast? = some (today, x)) := by
    intro m key x hm
    refine ⟨?_, upsertTodayPoint_sorted _ today x, ?_⟩
    · rw [upsertAssetSeries_lookup_some m key x today, hm, getD_map_filter]
    · intro hcount
      set pts₀ := ((lookupKey ts key).getD []).filter fun pt => decide (pt.1 ≤ today)
        with hpts₀
      have hsub : pts₀.countP (fun pt => decide (pt.1 = today)) ≤ 1 :=
        le_trans (List.Sublist.countP_le _ (List.filter_sublist _)) hcount
      apply getLast?_eq_of_sorted_max (upsertTodayPoint_sorted pts₀ today x)
      · exact (upsertTodayPoint_perm pts₀ today x).mem_iff.mpr
          (upsertDay_self_mem pts₀ today x)
      · intro e he
        rcases mem_upsertDay ((upsertTodayPoint_perm pts₀ today x).mem_iff.mp he) with
          he' | rfl
        · simpa using List.of_mem_filter he'
        · exact le_refl today
      · intro e he
        exact upsertDay_today_unique hsub e
          ((upsertTodayPoint_perm pts₀ today x).mem_iff.mp he)
  refine ⟨?_, ?_, ?_, ?_, ?_, ?_⟩
  · rw [hdef]
    exact upsertAssetSeries_all_le _ "vn30" v today
      (upsertAssetSeries_all_le _ "bitcoin" b today
        (upsertAssetSeries_all_le _ "usd_vnd" u today
          (upsertAssetSeries_all_le _ "gold" g today hmerged_le)))
  · rintro x rfl
    rcases key_spec _ "gold" x (lookupKey_map_filter ts "gold" today) with ⟨h1, h2, h3⟩
    refine ⟨_, ?_, h2, h3⟩
    rw [hdef,
      upsertAssetSeries_lookup_other _ "vn30" v today "gold" (by decide),
      upsertAssetSeries_lookup_other _ "bitcoin" b today "gold" (by decide),
      upsertAssetSeries_lookup_other _ "usd_vnd" u today "gold" (by decide), h1]
  · rintro x rfl
    have hm : lookupKey (upsertAssetSeries (ts.map fun ap =>
        (ap.1, ap.2.filter fun pt => decide (pt.1 ≤ today))) "gold" g today) "usd_vnd" =
        (lookupKey ts "usd_vnd").map fun pts => pts.filter fun pt =>
          decide (pt.1 ≤ today) := by
      rw [upsertAssetSeries_lookup_other _ "gold" g today "usd_vnd" (by decide),
        lookupKey_map_filter]
    rcases key_spec _ "usd_vnd" x hm with ⟨h1, h2, h3⟩
    refine ⟨_, ?_, h2, h3⟩
    rw [hdef,
      upsertAssetSeries_lookup_other _ "vn30" v today "usd_vnd" (by decide),
      upsertAssetSeries_lookup_other _ "bitcoin" b today "usd_vnd" (by decide), h1]
  · rintro x rfl
    have hm : lookupKey (upsertAssetSeries (upsertAssetSeries (ts.map fun ap =>
        (ap.1, ap.2.filter fun pt => decide (pt.1 ≤ today))) "gold" g today)
          "usd_vnd" u today) "bitcoin" =
        (lookupKey ts "bitcoin").map fun pts => pts.filter fun pt =>
          decide (pt.1 ≤ today) := by
      rw [upsertAssetSeries_lookup_other _ "usd_vnd" u today "bitcoin" (by decide),
        upsertAssetSeries_lookup_other _ "gold" g today "bitcoin" (by decide),
        lookupKey_map_filter]
    rcases key_spec _ "bitcoin" x hm with ⟨h1, h2, h3⟩
    refine ⟨_, ?_, h2, h3⟩
    rw [hdef,
      upsertAssetSeries_lookup_other _ "vn30" v today "bitcoin" (by decide), h1]
  · rintro x rfl
    have hm : lookupKey (upsertAssetSeries (upsertAssetSeries (upsertAssetSeries
        (ts.map fun ap => (ap.1, ap.2.filter fun pt => decide (pt.1 ≤ today)))
        "gold" g today) "usd_vnd" u today) "bitcoin" b today) "vn30" =
        (lookupKey ts "vn30").map fun pts => pts.filter fun pt =>
          decide (pt.1 ≤ today) := by
      rw [upsertAssetSeries_lookup_other _ "bitcoin" b today "vn30" (by decide),
        upsertAssetSeries_lookup_other _ "usd_vnd" u today "vn30" (by decide),
        upsertAssetSeries_lookup_other _ "gold" g today "vn30" (by decide),
        lookupKey_map_filter]
    rcases key_spec _ "vn30" x hm with ⟨h1, h2, h3⟩
    exact ⟨_, by rw [hdef, h1], h2, h3⟩
  · intro key hkey
    simp only [List.mem_cons, List.not_mem_nil, or_false, not_or] at hkey
    rw [hdef,
      upsertAssetSeries_lookup_other _ "vn30" v today key (fun h => hkey.2.2.2 h.symm),
      upsertAssetSeries_lookup_other _ "bitcoin" b today key (fun h => hkey.2.2.1 h.symm),
      upsertAssetSeries_lookup_other _ "usd_vnd" u today key (fun h => hkey.2.1 h.symm),
      upsertAssetSeries_lookup_other _ "gold" g today key (fun h => hkey.1 h.symm),
      lookupKey_map_filter]

/-- Witness for C5 (amended): merging a current gold value 42 for day 6 into
the two-point series `[(3, 7), (5, 10)]` gives a sorted series ending in
`(6, 42)`. -/
theorem merge_current_into_timeseries_spec_w :
    ∃ pts, lookupKey (merge_current_into_timeseries
        [("gold", [((3 : ℤ), (7 : ℚ)), (5, 10)])] (some 42) none none none 6)
        "gold" = some pts ∧
      pts.Pairwise (fun p q : ℤ × ℚ => p.1 ≤ q.1) ∧
      pts.getLast? = some (6, 42) := by
  rcases (merge_current_into_timeseries_spec
      [("gold", [((3 : ℤ), (7 : ℚ)), (5, 10)])] (some 42) none none none 6).2.1
      42 rfl with ⟨pts, h1, h2, h3⟩
  exact ⟨pts, h1, h2, h3 (by decide)⟩

end GoldDashboard
